import Mathlib

/-!
Shallow embedding of the keyboard-matrix firmware core of
`EvoCmdWingKeyboard` (`src/src/Keysend.cpp`), together with theorems
settling the specification claims about it.

The embedding models the scan/debounce engine, the keymap table, the
modifier ref-count ledger and the dispatch logic.  External collaborators
(GPIO driver, USB transport, LED) are modelled as: a per-cycle raw input
function (the column reads), an explicit trace of transport calls, and a
boolean LED field.  Each transport call in the trace is tagged with the
source function that emitted it, so that provenance claims can be stated.
Machine integers (`uint16_t` counters, `uint32_t` millis) are `Nat` with
explicit `% 2^16` / `% 2^32` where the C code can wrap.
-/

set_option maxRecDepth 100000

namespace EvoKbd

/-- `NUM_ROWS` from Keysend.cpp. -/
abbrev NUM_ROWS : Nat := 10

/-- `NUM_COLS` from Keysend.cpp. -/
abbrev NUM_COLS : Nat := 14

/-- `DEBOUNCE_MS` from Keysend.cpp. -/
def DEBOUNCE_MS : Nat := 5

/-- Modulus of a `uint16_t`. -/
def U16 : Nat := 65536

/-- Modulus of a `uint32_t`. -/
def U32 : Nat := 4294967296

/-- `uint32_t` subtraction `a - b` as C computes it (modular);
meaningful whenever `b < U32`. -/
def sub32 (a b : Nat) : Nat := (a + U32 - b) % U32

/-- A matrix position (row, column). -/
abbrev Cell := Fin NUM_ROWS × Fin NUM_COLS

/-- Modifier bitmask values (`enum ModMask`). -/
def MOD_NONE : Nat := 0

def MOD_LCTRL : Nat := 1

def MOD_LALT : Nat := 2

def MOD_LSHIFT : Nat := 4

/-- Teensy core keycode constants used by the keymap (from the external
Teensy `keylayouts.h`; the 0xF000 marker is noted in Keysend.cpp). -/
def KEY_ENTER : Nat := 0xF028

def KEY_ESC : Nat := 0xF029

def KEY_BACKSPACE : Nat := 0xF02A

def KEY_F1 : Nat := 0xF03A

def KEY_F2 : Nat := 0xF03B

def KEY_F3 : Nat := 0xF03C

def KEY_F4 : Nat := 0xF03D

def KEY_F5 : Nat := 0xF03E

def KEY_F6 : Nat := 0xF03F

def KEY_F7 : Nat := 0xF040

def KEY_F8 : Nat := 0xF041

def KEY_F12 : Nat := 0xF045

def KEY_INSERT : Nat := 0xF049

def KEY_HOME : Nat := 0xF04A

def KEY_PAGE_UP : Nat := 0xF04B

def KEY_DELETE : Nat := 0xF04C

def KEY_END : Nat := 0xF04D

def KEY_PAGE_DOWN : Nat := 0xF04E

def KEYPAD_ASTERIX : Nat := 0xF055

def KEYPAD_PLUS : Nat := 0xF057

/-- Modifier keycodes (`MODIFIERKEY_LEFT_*` from the Teensy core). -/
def MODIFIERKEY_LEFT_CTRL : Nat := 0xE001

def MODIFIERKEY_LEFT_SHIFT : Nat := 0xE002

def MODIFIERKEY_LEFT_ALT : Nat := 0xE004

/-- `struct KeyAction` from Keysend.cpp. -/
structure KeyAction where
  valid : Bool
  modifierOnly : Bool
  baseKey : Nat
  mods : Nat
deriving DecidableEq

/-- `KA_empty()`. -/
def KA_empty : KeyAction := ⟨false, false, 0, MOD_NONE⟩

/-- `KA_base(char)`. -/
def KA_base (ascii : Char) : KeyAction := ⟨true, false, ascii.toNat, MOD_NONE⟩

/-- `KA_key(uint16_t)`. -/
def KA_key (keycode : Nat) : KeyAction := ⟨true, false, keycode, MOD_NONE⟩

/-- `KA_chord(char, ModMask)`. -/
def KA_chord (ascii : Char) (m : Nat) : KeyAction := ⟨true, false, ascii.toNat, m⟩

/-- `KA_chord_key(uint16_t, ModMask)`. -/
def KA_chord_key (keycode : Nat) (m : Nat) : KeyAction := ⟨true, false, keycode, m⟩

/-- `KA_mod(ModMask)`. -/
def KA_mod (m : Nat) : KeyAction := ⟨true, true, 0, m⟩

/-- Alias `C = MOD_LCTRL` from Keysend.cpp. -/
def C : Nat := MOD_LCTRL

/-- Alias `A = MOD_LALT` from Keysend.cpp. -/
def A : Nat := MOD_LALT

/-- Row 0 of the `keymap` table. -/
def keymapRow0 (c : Fin NUM_COLS) : KeyAction :=
  match c.val with
  | 0 => KA_chord 'p' A
  | 1 => KA_chord 'n' A
  | 2 => KA_chord 'h' A
  | 3 => KA_chord 'o' C
  | 4 => KA_chord 'u' C
  | _ => KA_empty

/-- Row 1 of the `keymap` table. -/
def keymapRow1 (c : Fin NUM_COLS) : KeyAction :=
  match c.val with
  | 0 => KA_chord 'f' A
  | 1 => KA_chord 'u' A
  | 2 => KA_chord 'g' A
  | 3 => KA_chord 'm' C
  | 4 => KA_chord 'c' C
  | 5 => KA_key KEY_F1
  | 6 => KA_key KEY_F2
  | 7 => KA_key KEY_F3
  | 8 => KA_key KEY_F4
  | 9 => KA_empty
  | 10 => KA_key KEY_F5
  | 11 => KA_key KEY_F6
  | 12 => KA_key KEY_F7
  | _ => KA_key KEY_F8

/-- Row 2 of the `keymap` table. -/
def keymapRow2 (c : Fin NUM_COLS) : KeyAction :=
  match c.val with
  | 0 => KA_chord 'f' A
  | 1 => KA_chord 'd' A
  | 2 => KA_chord 'b' A
  | 3 => KA_chord 'd' C
  | 4 => KA_chord 'l' C
  | 5 => KA_key KEY_INSERT
  | 6 => KA_key KEY_HOME
  | 7 => KA_key KEY_PAGE_UP
  | 8 => KA_key KEY_F12
  | 9 => KA_empty
  | 10 => KA_key KEY_DELETE
  | 11 => KA_key KEY_END
  | 12 => KA_key KEY_PAGE_DOWN
  | _ => KA_key KEYPAD_PLUS

/-- Row 3 of the `keymap` table. -/
def keymapRow3 (c : Fin NUM_COLS) : KeyAction :=
  match c.val with
  | 2 => KA_chord 'w' A
  | 3 => KA_chord 's' C
  | 4 => KA_chord 'h' C
  | _ => KA_empty

/-- Row 4 of the `keymap` table. -/
def keymapRow4 (c : Fin NUM_COLS) : KeyAction :=
  match c.val with
  | 2 => KA_chord 'v' A
  | 3 => KA_chord 'e' C
  | 4 => KA_chord 'z' C
  | 5 => KA_chord 'r' A
  | 6 => KA_chord 'k' A
  | 7 => KA_chord 'z' A
  | 9 => KA_chord 'j' A
  | 11 => KA_chord 'l' A
  | 12 => KA_chord '.' A
  | 13 => KA_chord ',' A
  | _ => KA_empty

/-- Row 5 of the `keymap` table. -/
def keymapRow5 (c : Fin NUM_COLS) : KeyAction :=
  match c.val with
  | 2 => KA_chord '[' A
  | 3 => KA_chord 'f' C
  | 4 => KA_chord 'n' C
  | 5 => KA_chord 'g' C
  | 7 => KA_base '7'
  | 8 => KA_base '8'
  | 9 => KA_base '9'
  | 10 => KA_chord '=' A
  | 12 => KA_chord 'o' A
  | _ => KA_empty

/-- Row 6 of the `keymap` table. -/
def keymapRow6 (c : Fin NUM_COLS) : KeyAction :=
  match c.val with
  | 2 => KA_chord ']' A
  | 3 => KA_chord 'p' C
  | 4 => KA_chord 'q' C
  | 5 => KA_chord 'w' C
  | 7 => KA_base '4'
  | 8 => KA_base '5'
  | 9 => KA_base '6'
  | 10 => KA_chord 't' A
  | _ => KA_empty

/-- Row 7 of the `keymap` table. -/
def keymapRow7 (c : Fin NUM_COLS) : KeyAction :=
  match c.val with
  | 1 => KA_key KEYPAD_ASTERIX
  | 7 => KA_base '1'
  | 8 => KA_base '2'
  | 9 => KA_base '3'
  | 10 => KA_base '-'
  | _ => KA_empty

/-- Row 8 of the `keymap` table. -/
def keymapRow8 (c : Fin NUM_COLS) : KeyAction :=
  match c.val with
  | 1 => KA_base ']'
  | 2 => KA_chord '\'' A
  | 3 => KA_chord 'x' C
  | 4 => KA_chord 'a' C
  | 5 => KA_chord 'j' C
  | 7 => KA_base '0'
  | 8 => KA_base '.'
  | 9 => KA_chord '8' A
  | 10 => KA_chord '2' A
  | 12 => KA_key KEY_ESC
  | _ => KA_empty

/-- Row 9 of the `keymap` table. -/
def keymapRow9 (c : Fin NUM_COLS) : KeyAction :=
  match c.val with
  | 1 => KA_base '['
  | 2 => KA_chord ';' A
  | 3 => KA_chord 'b' C
  | 5 => KA_chord 's' A
  | 7 => KA_mod MOD_LSHIFT
  | 8 => KA_chord '/' C
  | 10 => KA_key KEY_ENTER
  | 12 => KA_chord_key KEY_BACKSPACE A
  | 13 => KA_chord 'y' A
  | _ => KA_empty

/-- The `keymap[NUM_ROWS][NUM_COLS]` table. -/
def keymap (cell : Cell) : KeyAction :=
  match cell.1.val with
  | 0 => keymapRow0 cell.2
  | 1 => keymapRow1 cell.2
  | 2 => keymapRow2 cell.2
  | 3 => keymapRow3 cell.2
  | 4 => keymapRow4 cell.2
  | 5 => keymapRow5 cell.2
  | 6 => keymapRow6 cell.2
  | 7 => keymapRow7 cell.2
  | 8 => keymapRow8 cell.2
  | _ => keymapRow9 cell.2

/-- Which source function emitted a transport call (ghost provenance tag;
each constructor corresponds to one `Keyboard.press`/`release`/`releaseAll`
call site in Keysend.cpp). -/
inductive Emitter where
  | pressModifiersE
  | releaseModifiersE
  | handleKeyPressE
  | handleKeyReleaseE
  | keyboardReleaseAllE
deriving DecidableEq

/-- A call to the keyboard-input transport (`Keyboard.press`,
`Keyboard.release`, `Keyboard.releaseAll`), tagged with its emitter. -/
inductive TCall where
  | press (src : Emitter) (code : Nat)
  | release (src : Emitter) (code : Nat)
  | releaseAllCall (src : Emitter)
deriving DecidableEq

/-- The mutable firmware state: the four per-cell grids, the three
modifier reference counters, the pressed-key count, and the LED pin. -/
@[ext]
structure KState where
  rawState : Cell → Bool
  lastRaw : Cell → Bool
  debounced : Cell → Bool
  lastChange : Cell → Nat
  refCtrl : Nat
  refAlt : Nat
  refShift : Nat
  pressedCount : Nat
  ledPin : Bool

/-- The state established by `keyboardInit()`. -/
def keyboardInit : KState :=
  { rawState := fun _ => false
    lastRaw := fun _ => false
    debounced := fun _ => false
    lastChange := fun _ => 0
    refCtrl := 0
    refAlt := 0
    refShift := 0
    pressedCount := 0
    ledPin := false }

/-- The Ctrl line of `pressModifiers`. -/
def pressCtrl (m : Nat) (s : KState) : KState × List TCall :=
  if m &&& MOD_LCTRL ≠ 0 then
    ({ s with refCtrl := (s.refCtrl + 1) % U16 },
     if s.refCtrl = 0 then [TCall.press Emitter.pressModifiersE MODIFIERKEY_LEFT_CTRL] else [])
  else (s, [])

/-- The Alt line of `pressModifiers`. -/
def pressAlt (m : Nat) (s : KState) : KState × List TCall :=
  if m &&& MOD_LALT ≠ 0 then
    ({ s with refAlt := (s.refAlt + 1) % U16 },
     if s.refAlt = 0 then [TCall.press Emitter.pressModifiersE MODIFIERKEY_LEFT_ALT] else [])
  else (s, [])

/-- The Shift line of `pressModifiers`. -/
def pressShift (m : Nat) (s : KState) : KState × List TCall :=
  if m &&& MOD_LSHIFT ≠ 0 then
    ({ s with refShift := (s.refShift + 1) % U16 },
     if s.refShift = 0 then [TCall.press Emitter.pressModifiersE MODIFIERKEY_LEFT_SHIFT] else [])
  else (s, [])

/-- `pressModifiers(ModMask m)` from Keysend.cpp. -/
def pressModifiers (m : Nat) (s : KState) : KState × List TCall :=
  let r1 := pressCtrl m s
  let r2 := pressAlt m r1.1
  let r3 := pressShift m r2.1
  (r3.1, r1.2 ++ r2.2 ++ r3.2)

/-- The Ctrl line of `releaseModifiers`: `if (m & MOD_LCTRL) { if (refCtrl > 0
&& --refCtrl == 0) Keyboard.release(...); }` — the decrement only happens
when the counter is positive. -/
def releaseCtrl (m : Nat) (s : KState) : KState × List TCall :=
  if m &&& MOD_LCTRL ≠ 0 then
    if 0 < s.refCtrl then
      ({ s with refCtrl := s.refCtrl - 1 },
       if s.refCtrl - 1 = 0 then [TCall.release Emitter.releaseModifiersE MODIFIERKEY_LEFT_CTRL] else [])
    else (s, [])
  else (s, [])

/-- The Alt line of `releaseModifiers`. -/
def releaseAlt (m : Nat) (s : KState) : KState × List TCall :=
  if m &&& MOD_LALT ≠ 0 then
    if 0 < s.refAlt then
      ({ s with refAlt := s.refAlt - 1 },
       if s.refAlt - 1 = 0 then [TCall.release Emitter.releaseModifiersE MODIFIERKEY_LEFT_ALT] else [])
    else (s, [])
  else (s, [])

/-- The Shift line of `releaseModifiers`. -/
def releaseShift (m : Nat) (s : KState) : KState × List TCall :=
  if m &&& MOD_LSHIFT ≠ 0 then
    if 0 < s.refShift then
      ({ s with refShift := s.refShift - 1 },
       if s.refShift - 1 = 0 then [TCall.release Emitter.releaseModifiersE MODIFIERKEY_LEFT_SHIFT] else [])
    else (s, [])
  else (s, [])

/-- `releaseModifiers(ModMask m)` from Keysend.cpp. -/
def releaseModifiers (m : Nat) (s : KState) : KState × List TCall :=
  let r1 := releaseCtrl m s
  let r2 := releaseAlt m r1.1
  let r3 := releaseShift m r2.1
  (r3.1, r1.2 ++ r2.2 ++ r3.2)

/-- `if (++pressedCount == 1) digitalWrite(LED_PIN, HIGH);` — the
pressed-count increment and LED update shared by both press paths. -/
def incPressedLED (s : KState) : KState :=
  let s1 := { s with pressedCount := (s.pressedCount + 1) % U16 }
  if s1.pressedCount = 1 then { s1 with ledPin := true } else s1

/-- `if (pressedCount > 0 && --pressedCount == 0) digitalWrite(LED_PIN, LOW);`
— the guarded pressed-count decrement and LED update shared by both release
paths. -/
def decPressedLED (s : KState) : KState :=
  if 0 < s.pressedCount then
    if s.pressedCount - 1 = 0 then
      { s with pressedCount := s.pressedCount - 1, ledPin := false }
    else { s with pressedCount := s.pressedCount - 1 }
  else s

/-- `handleKeyPress(uint8_t r, uint8_t c)` from Keysend.cpp. -/
def handleKeyPress (r : Fin NUM_ROWS) (c : Fin NUM_COLS) (s : KState) : KState × List TCall :=
  let ka := keymap (r, c)
  if ka.valid = false then (s, [])
  else if ka.modifierOnly = true then
    let r1 := pressModifiers ka.mods s
    (incPressedLED r1.1, r1.2)
  else
    let r1 := if ka.mods ≠ MOD_NONE then pressModifiers ka.mods s else (s, [])
    (incPressedLED r1.1, r1.2 ++ [TCall.press Emitter.handleKeyPressE ka.baseKey])

/-- `handleKeyRelease(uint8_t r, uint8_t c)` from Keysend.cpp. -/
def handleKeyRelease (r : Fin NUM_ROWS) (c : Fin NUM_COLS) (s : KState) : KState × List TCall :=
  let ka := keymap (r, c)
  if ka.valid = false then (s, [])
  else if ka.modifierOnly = true then
    let r1 := releaseModifiers ka.mods s
    (decPressedLED r1.1, r1.2)
  else
    let r1 := if ka.mods ≠ MOD_NONE then releaseModifiers ka.mods s else (s, [])
    (decPressedLED r1.1, TCall.release Emitter.handleKeyReleaseE ka.baseKey :: r1.2)

/-- The cells in the row-major order of the nested scan loops. -/
def allCells : List Cell :=
  (List.finRange NUM_ROWS).flatMap (fun r => (List.finRange NUM_COLS).map (fun c => (r, c)))

/-- The body of the debounce/dispatch loop of `keyboardScan` for one cell:
raw-edge timer reset, then the commit check, then dispatch.  Besides the
transport calls it also records the transition event (ghost data: which
cell committed and in which direction). -/
def scanStep (now : Nat) (cell : Cell) (s : KState) : KState × List TCall × List (Cell × Bool) :=
  let currRaw := s.rawState cell
  let s1 :=
    if currRaw ≠ s.lastRaw cell then
      { s with lastRaw := Function.update s.lastRaw cell currRaw
               lastChange := Function.update s.lastChange cell now }
    else s
  if s1.debounced cell ≠ currRaw ∧ DEBOUNCE_MS ≤ sub32 now (s1.lastChange cell) then
    let s2 := { s1 with debounced := Function.update s1.debounced cell currRaw }
    let r := if currRaw then handleKeyPress cell.1 cell.2 s2 else handleKeyRelease cell.1 cell.2 s2
    (r.1, r.2, [(cell, currRaw)])
  else (s1, [], [])

/-- Sequentially run a per-cell step over a list of cells, concatenating
the emitted transport calls and events. -/
def runCells (f : Cell → KState → KState × List TCall × List (Cell × Bool)) :
    List Cell → KState → KState × List TCall × List (Cell × Bool)
  | [], s => (s, [], [])
  | x :: xs, s =>
    let r1 := f x s
    let r2 := runCells f xs r1.1
    (r2.1, r1.2.1 ++ r2.2.1, r1.2.2 ++ r2.2.2)

/-- `keyboardScan()` from Keysend.cpp: phase 1 stores the sampled column
reads (`input`) into `rawState`; phase 2 debounces and dispatches cell by
cell in row-major order.  `now` is the single `millis()` read of the
cycle. -/
def keyboardScan (now : Nat) (input : Cell → Bool) (s : KState) :
    KState × List TCall × List (Cell × Bool) :=
  runCells (scanStep now) allCells { s with rawState := input }

/-- The body of the `keyboardReleaseAll` per-cell loop: release a cell
currently marked debounced, then clear its debounced flag. -/
def relStep (cell : Cell) (s : KState) : KState × List TCall :=
  if s.debounced cell then
    let r1 := handleKeyRelease cell.1 cell.2 s
    ({ r1.1 with debounced := Function.update r1.1.debounced cell false }, r1.2)
  else (s, [])

/-- Run `relStep` over a list of cells, concatenating traces. -/
def runRel : List Cell → KState → KState × List TCall
  | [], s => (s, [])
  | x :: xs, s =>
    let r1 := relStep x s
    let r2 := runRel xs r1.1
    (r2.1, r1.2 ++ r2.2)

/-- `keyboardReleaseAll()` from Keysend.cpp: walk the debounced matrix
releasing held cells, force each still-nonzero modifier counter to zero
(directly releasing that modifier), issue the unconditional transport
`releaseAll`, zero the pressed count and turn the LED off. -/
def keyboardReleaseAll (s : KState) : KState × List TCall :=
  let r1 := runRel allCells s
  let s1 := r1.1
  let r2 :=
    if s1.refCtrl ≠ 0 then
      ({ s1 with refCtrl := 0 }, [TCall.release Emitter.keyboardReleaseAllE MODIFIERKEY_LEFT_CTRL])
    else (s1, [])
  let r3 :=
    if r2.1.refAlt ≠ 0 then
      ({ r2.1 with refAlt := 0 }, [TCall.release Emitter.keyboardReleaseAllE MODIFIERKEY_LEFT_ALT])
    else (r2.1, [])
  let r4 :=
    if r3.1.refShift ≠ 0 then
      ({ r3.1 with refShift := 0 }, [TCall.release Emitter.keyboardReleaseAllE MODIFIERKEY_LEFT_SHIFT])
    else (r3.1, [])
  ({ r4.1 with pressedCount := 0, ledPin := false },
   r1.2 ++ r2.2 ++ r3.2 ++ r4.2 ++ [TCall.releaseAllCall Emitter.keyboardReleaseAllE])

/-- An externally observable operation on the core: one scan cycle (with
its `millis()` value and the raw column reads), or a full release. -/
inductive Op where
  | scan (now : Nat) (input : Cell → Bool)
  | releaseAll

/-- Apply one operation, returning the new state and the transport calls. -/
def applyOpT : Op → KState → KState × List TCall
  | Op.scan now input, s => ((keyboardScan now input s).1, (keyboardScan now input s).2.1)
  | Op.releaseAll, s => keyboardReleaseAll s

/-- Run a sequence of operations, collecting all transport calls. -/
def runOpsT : List Op → KState → KState × List TCall
  | [], s => (s, [])
  | op :: ops, s =>
    let r1 := applyOpT op s
    let r2 := runOpsT ops r1.1
    (r2.1, r1.2 ++ r2.2)

/-- Run a sequence of operations, keeping only the final state. -/
def runOps : List Op → KState → KState
  | [], s => s
  | op :: ops, s => runOps ops (applyOpT op s).1

/-- Run a sequence of scan cycles, collecting the transition events. -/
def runScanEvents : List (Nat × (Cell → Bool)) → KState → KState × List (Cell × Bool)
  | [], s => (s, [])
  | p :: ps, s =>
    let r := keyboardScan p.1 p.2 s
    let rest := runScanEvents ps r.1
    (rest.1, r.2.2 ++ rest.2)

/-- The three modifier symbols of the ledger. -/
inductive MKey where
  | ctrl
  | alt
  | shift
deriving DecidableEq, Fintype

/-- The reference counter of a modifier. -/
def refOf (k : MKey) (s : KState) : Nat :=
  match k with
  | MKey.ctrl => s.refCtrl
  | MKey.alt => s.refAlt
  | MKey.shift => s.refShift

/-- The bitmask bit of a modifier. -/
def maskBit (k : MKey) : Nat :=
  match k with
  | MKey.ctrl => MOD_LCTRL
  | MKey.alt => MOD_LALT
  | MKey.shift => MOD_LSHIFT

/-- The transport keycode of a modifier. -/
def modCode (k : MKey) : Nat :=
  match k with
  | MKey.ctrl => MODIFIERKEY_LEFT_CTRL
  | MKey.alt => MODIFIERKEY_LEFT_ALT
  | MKey.shift => MODIFIERKEY_LEFT_SHIFT

/-- Whether a mask contains a modifier. -/
def maskHas (k : MKey) (m : Nat) : Bool := m &&& maskBit k ≠ 0

/-- A Modifier Ledger operation: `hold` (pressModifiers) or `unhold`
(releaseModifiers). -/
inductive MOp where
  | hold (m : Nat)
  | unhold (m : Nat)

/-- Apply one ledger operation. -/
def applyMOp : MOp → KState → KState × List TCall
  | MOp.hold m, s => pressModifiers m s
  | MOp.unhold m, s => releaseModifiers m s

/-- Run a sequence of ledger operations, collecting transport calls. -/
def runMOps : List MOp → KState → KState × List TCall
  | [], s => (s, [])
  | op :: ops, s =>
    let r1 := applyMOp op s
    let r2 := runMOps ops r1.1
    (r2.1, r1.2 ++ r2.2)

/-- Number of 0→1 transitions of modifier `k`'s counter along a run of
ledger operations. -/
def trans01 (k : MKey) : List MOp → KState → Nat
  | [], _ => 0
  | op :: ops, s =>
    (if refOf k s = 0 ∧ refOf k (applyMOp op s).1 = 1 then 1 else 0) +
      trans01 k ops (applyMOp op s).1

/-- Number of 1→0 transitions of modifier `k`'s counter along a run of
ledger operations. -/
def trans10 (k : MKey) : List MOp → KState → Nat
  | [], _ => 0
  | op :: ops, s =>
    (if refOf k s = 1 ∧ refOf k (applyMOp op s).1 = 0 then 1 else 0) +
      trans10 k ops (applyMOp op s).1

/-- Number of transport asserts (presses) of modifier `k` in a trace. -/
def assertCount (k : MKey) (t : List TCall) : Nat :=
  t.countP (fun call =>
    match call with
    | TCall.press _ code => code == modCode k
    | _ => false)

/-- Number of transport deasserts (releases) of modifier `k` in a trace. -/
def deassertCount (k : MKey) (t : List TCall) : Nat :=
  t.countP (fun call =>
    match call with
    | TCall.release _ code => code == modCode k
    | _ => false)

/-- Number of cells currently `debounced = true` whose keymap action is
non-Empty. -/
def vCount (d : Cell → Bool) : Nat :=
  (Finset.univ.filter (fun x : Cell => d x = true ∧ (keymap x).valid = true)).card

/-- Number of cells currently `debounced = true` (all cells, including
Empty positions). -/
def debCount (s : KState) : Nat :=
  (Finset.univ.filter (fun x : Cell => s.debounced x = true)).card

/-- The pressed-count/indicator coherence invariant, restricted to
non-Empty cells. -/
def inv1 (s : KState) : Prop :=
  s.pressedCount = vCount s.debounced ∧ (s.ledPin = true ↔ 0 < s.pressedCount)

/-- The transition events of a trace that concern one given cell. -/
def eventsFor (cell : Cell) (es : List (Cell × Bool)) : List (Cell × Bool) :=
  es.filter (fun e => decide (e.1 = cell))

/-- Whether a keycode is one of the three modifier keycodes. -/
def isModCode (code : Nat) : Bool :=
  code == MODIFIERKEY_LEFT_CTRL || code == MODIFIERKEY_LEFT_ALT || code == MODIFIERKEY_LEFT_SHIFT

/-- The provenance tag of a transport call. -/
def emitterOf : TCall → Emitter
  | TCall.press e _ => e
  | TCall.release e _ => e
  | TCall.releaseAllCall e => e

/-- Whether a transport call presses or releases a modifier keycode. -/
def isModPR : TCall → Bool
  | TCall.press _ code => isModCode code
  | TCall.release _ code => isModCode code
  | TCall.releaseAllCall _ => false

/-- Whether a transport call presses (asserts) a modifier keycode. -/
def isModPress : TCall → Bool
  | TCall.press _ code => isModCode code
  | _ => false

/-- Map a press-path call to the matching release-path call (base-key
press ↦ base-key release, modifier assert ↦ modifier deassert). -/
def swapPR : TCall → TCall
  | TCall.press Emitter.pressModifiersE code => TCall.release Emitter.releaseModifiersE code
  | TCall.press Emitter.handleKeyPressE code => TCall.release Emitter.handleKeyReleaseE code
  | t => t

/-- Concrete cell (0,0) — a `Chord('p', Alt)` position. -/
def cell00 : Cell := (⟨0, by decide⟩, ⟨0, by decide⟩)

/-- Concrete cell (0,5) — an `Empty` position. -/
def cell05 : Cell := (⟨0, by decide⟩, ⟨5, by decide⟩)

/-- Raw input pressing only cell (0,0). -/
def inp00 : Cell → Bool := fun x => decide (x = cell00)

/-- Raw input pressing only cell (0,5). -/
def inp05 : Cell → Bool := fun x => decide (x = cell05)

/-- Raw input with no key pressed. -/
def inpNone : Cell → Bool := fun _ => false

/-- The state after one scan of `inp05` from init at time 0 (raw edge
recorded, nothing committed yet). -/
def sA1 : KState := { keyboardInit with rawState := inp05, lastRaw := inp05 }

/-- The state after a second scan of `inp05` at time 5 (the Empty cell
(0,5) has committed to debounced-pressed). -/
def sA2 : KState := { sA1 with debounced := inp05 }

/-- The state after a further scan of `inpNone` at time 6 (release edge
recorded for (0,5), not yet committed). -/
def sA3 : KState :=
  { keyboardInit with
      debounced := inp05
      lastChange := Function.update (fun _ => (0 : Nat)) cell05 6 }

/-- A start state with cell (0,0) raw-pressed and stable (its raw edge
already recorded at time 0). -/
def sB1 : KState := { keyboardInit with rawState := inp00, lastRaw := inp00 }

/-- Classification of the transport calls a scan cycle can emit: a
modifier assert from `pressModifiers`, a modifier deassert from
`releaseModifiers`, or a base-key press/release of some cell's keymap
entry from the handlers. -/
def OkCall (t : TCall) : Prop :=
  (∃ k : MKey, t = TCall.press Emitter.pressModifiersE (modCode k)) ∨
    (∃ k : MKey, t = TCall.release Emitter.releaseModifiersE (modCode k)) ∨
    (∃ cell : Cell, t = TCall.press Emitter.handleKeyPressE (keymap cell).baseKey) ∨
    (∃ cell : Cell, t = TCall.release Emitter.handleKeyReleaseE (keymap cell).baseKey)

/-! ### Canonical forms of the ledger operations -/

theorem pressModifiers_eq (m : Nat) (s : KState) :
    pressModifiers m s =
      ({ s with
          refCtrl := if m &&& MOD_LCTRL ≠ 0 then (s.refCtrl + 1) % U16 else s.refCtrl
          refAlt := if m &&& MOD_LALT ≠ 0 then (s.refAlt + 1) % U16 else s.refAlt
          refShift := if m &&& MOD_LSHIFT ≠ 0 then (s.refShift + 1) % U16 else s.refShift },
       (if m &&& MOD_LCTRL ≠ 0 ∧ s.refCtrl = 0 then
          [TCall.press Emitter.pressModifiersE MODIFIERKEY_LEFT_CTRL] else []) ++
       (if m &&& MOD_LALT ≠ 0 ∧ s.refAlt = 0 then
          [TCall.press Emitter.pressModifiersE MODIFIERKEY_LEFT_ALT] else []) ++
       (if m &&& MOD_LSHIFT ≠ 0 ∧ s.refShift = 0 then
          [TCall.press Emitter.pressModifiersE MODIFIERKEY_LEFT_SHIFT] else [])) := by
  unfold pressModifiers pressCtrl pressAlt pressShift
  by_cases h1 : m &&& MOD_LCTRL ≠ 0 <;> by_cases h2 : m &&& MOD_LALT ≠ 0 <;>
    by_cases h3 : m &&& MOD_LSHIFT ≠ 0 <;>
    simp [h1, h2, h3]

theorem releaseModifiers_eq (m : Nat) (s : KState) :
    releaseModifiers m s =
      ({ s with
          refCtrl := if m &&& MOD_LCTRL ≠ 0 ∧ 0 < s.refCtrl then s.refCtrl - 1 else s.refCtrl
          refAlt := if m &&& MOD_LALT ≠ 0 ∧ 0 < s.refAlt then s.refAlt - 1 else s.refAlt
          refShift := if m &&& MOD_LSHIFT ≠ 0 ∧ 0 < s.refShift then s.refShift - 1 else s.refShift },
       (if m &&& MOD_LCTRL ≠ 0 ∧ s.refCtrl = 1 then
          [TCall.release Emitter.releaseModifiersE MODIFIERKEY_LEFT_CTRL] else []) ++
       (if m &&& MOD_LALT ≠ 0 ∧ s.refAlt = 1 then
          [TCall.release Emitter.releaseModifiersE MODIFIERKEY_LEFT_ALT] else []) ++
       (if m &&& MOD_LSHIFT ≠ 0 ∧ s.refShift = 1 then
          [TCall.release Emitter.releaseModifiersE MODIFIERKEY_LEFT_SHIFT] else [])) := by
  unfold releaseModifiers releaseCtrl releaseAlt releaseShift
  by_cases h1 : m &&& MOD_LCTRL ≠ 0 <;> by_cases h2 : m &&& MOD_LALT ≠ 0 <;>
    by_cases h3 : m &&& MOD_LSHIFT ≠ 0 <;>
    rcases Nat.eq_zero_or_pos s.refCtrl with hc | hc <;>
    rcases Nat.eq_zero_or_pos s.refAlt with ha | ha <;>
    rcases Nat.eq_zero_or_pos s.refShift with hs | hs <;>
    simp [h1, h2, h3, hc, ha, hs, Nat.pos_iff_ne_zero] <;>
    first
      | rfl
      | (exact if_congr (by omega) rfl rfl)
      | (cases s; simp_all; done)
      | (repeat' first
          | rfl
          | (exact if_congr (by omega) rfl rfl)
          | congr 1)

/-! ### Frame lemmas: the ledger and counter helpers never touch the matrix grids -/

theorem pressModifiers_grids (m : Nat) (s : KState) :
    (pressModifiers m s).1.rawState = s.rawState ∧
      (pressModifiers m s).1.lastRaw = s.lastRaw ∧
      (pressModifiers m s).1.debounced = s.debounced ∧
      (pressModifiers m s).1.lastChange = s.lastChange ∧
      (pressModifiers m s).1.pressedCount = s.pressedCount ∧
      (pressModifiers m s).1.ledPin = s.ledPin := by
  rw [pressModifiers_eq]
  exact ⟨rfl, rfl, rfl, rfl, rfl, rfl⟩

theorem releaseModifiers_grids (m : Nat) (s : KState) :
    (releaseModifiers m s).1.rawState = s.rawState ∧
      (releaseModifiers m s).1.lastRaw = s.lastRaw ∧
      (releaseModifiers m s).1.debounced = s.debounced ∧
      (releaseModifiers m s).1.lastChange = s.lastChange ∧
      (releaseModifiers m s).1.pressedCount = s.pressedCount ∧
      (releaseModifiers m s).1.ledPin = s.ledPin := by
  rw [releaseModifiers_eq]
  exact ⟨rfl, rfl, rfl, rfl, rfl, rfl⟩

theorem incPressedLED_eq (s : KState) :
    incPressedLED s =
      if (s.pressedCount + 1) % U16 = 1 then
        { s with pressedCount := (s.pressedCount + 1) % U16, ledPin := true }
      else { s with pressedCount := (s.pressedCount + 1) % U16 } := by
  unfold incPressedLED
  dsimp only

theorem decPressedLED_eq (s : KState) :
    decPressedLED s =
      if 0 < s.pressedCount then
        (if s.pressedCount - 1 = 0 then
          { s with pressedCount := s.pressedCount - 1, ledPin := false }
        else { s with pressedCount := s.pressedCount - 1 })
      else s := rfl

/-! ### Handler shapes -/

theorem handleKeyPress_invalid {r : Fin NUM_ROWS} {c : Fin NUM_COLS}
    (h : (keymap (r, c)).valid = false) (s : KState) :
    handleKeyPress r c s = (s, []) := by
  unfold handleKeyPress
  simp [h]

theorem handleKeyRelease_invalid {r : Fin NUM_ROWS} {c : Fin NUM_COLS}
    (h : (keymap (r, c)).valid = false) (s : KState) :
    handleKeyRelease r c s = (s, []) := by
  unfold handleKeyRelease
  simp [h]

theorem handleKeyPress_valid {r : Fin NUM_ROWS} {c : Fin NUM_COLS}
    (h : (keymap (r, c)).valid = true) (s : KState) :
    handleKeyPress r c s =
      (if (keymap (r, c)).modifierOnly = true then
        (incPressedLED (pressModifiers (keymap (r, c)).mods s).1,
          (pressModifiers (keymap (r, c)).mods s).2)
      else
        (incPressedLED
          (if (keymap (r, c)).mods ≠ MOD_NONE then (pressModifiers (keymap (r, c)).mods s).1 else s),
         (if (keymap (r, c)).mods ≠ MOD_NONE then (pressModifiers (keymap (r, c)).mods s).2 else []) ++
           [TCall.press Emitter.handleKeyPressE (keymap (r, c)).baseKey])) := by
  unfold handleKeyPress
  simp only [h]
  split
  · simp_all
  · by_cases hm : (keymap (r, c)).mods ≠ MOD_NONE <;> simp_all

theorem handleKeyRelease_valid {r : Fin NUM_ROWS} {c : Fin NUM_COLS}
    (h : (keymap (r, c)).valid = true) (s : KState) :
    handleKeyRelease r c s =
      (if (keymap (r, c)).modifierOnly = true then
        (decPressedLED (releaseModifiers (keymap (r, c)).mods s).1,
          (releaseModifiers (keymap (r, c)).mods s).2)
      else
        (decPressedLED
          (if (keymap (r, c)).mods ≠ MOD_NONE then (releaseModifiers (keymap (r, c)).mods s).1 else s),
         TCall.release Emitter.handleKeyReleaseE (keymap (r, c)).baseKey ::
           (if (keymap (r, c)).mods ≠ MOD_NONE then (releaseModifiers (keymap (r, c)).mods s).2 else []))) := by
  unfold handleKeyRelease
  simp only [h]
  split
  · simp_all
  · by_cases hm : (keymap (r, c)).mods ≠ MOD_NONE <;> simp_all

theorem incPressedLED_grids (s : KState) :
    (incPressedLED s).rawState = s.rawState ∧
      (incPressedLED s).lastRaw = s.lastRaw ∧
      (incPressedLED s).debounced = s.debounced ∧
      (incPressedLED s).lastChange = s.lastChange := by
  rw [incPressedLED_eq]
  split <;> exact ⟨rfl, rfl, rfl, rfl⟩

theorem decPressedLED_grids (s : KState) :
    (decPressedLED s).rawState = s.rawState ∧
      (decPressedLED s).lastRaw = s.lastRaw ∧
      (decPressedLED s).debounced = s.debounced ∧
      (decPressedLED s).lastChange = s.lastChange := by
  rw [decPressedLED_eq]
  split_ifs <;> exact ⟨rfl, rfl, rfl, rfl⟩

theorem incPressedLED_pc (s : KState) :
    (incPressedLED s).pressedCount = (s.pressedCount + 1) % U16 := by
  rw [incPressedLED_eq]
  split <;> rfl

theorem incPressedLED_led (s : KState) :
    (incPressedLED s).ledPin = (if (s.pressedCount + 1) % U16 = 1 then true else s.ledPin) := by
  rw [incPressedLED_eq]
  split_ifs <;> rfl

theorem decPressedLED_pc (s : KState) :
    (decPressedLED s).pressedCount =
      (if 0 < s.pressedCount then s.pressedCount - 1 else s.pressedCount) := by
  rw [decPressedLED_eq]
  split_ifs <;> rfl

theorem decPressedLED_led (s : KState) :
    (decPressedLED s).ledPin =
      (if 0 < s.pressedCount ∧ s.pressedCount - 1 = 0 then false else s.ledPin) := by
  rw [decPressedLED_eq]
  split_ifs <;> simp_all

theorem handleKeyPress_grids (r : Fin NUM_ROWS) (c : Fin NUM_COLS) (s : KState) :
    (handleKeyPress r c s).1.rawState = s.rawState ∧
      (handleKeyPress r c s).1.lastRaw = s.lastRaw ∧
      (handleKeyPress r c s).1.debounced = s.debounced ∧
      (handleKeyPress r c s).1.lastChange = s.lastChange := by
  by_cases h : (keymap (r, c)).valid = true
  · rw [handleKeyPress_valid h]
    obtain ⟨p1, p2, p3, p4, -, -⟩ := pressModifiers_grids (keymap (r, c)).mods s
    obtain ⟨i1, i2, i3, i4⟩ := incPressedLED_grids (pressModifiers (keymap (r, c)).mods s).1
    obtain ⟨k1, k2, k3, k4⟩ := incPressedLED_grids s
    split
    · exact ⟨i1.trans p1, i2.trans p2, i3.trans p3, i4.trans p4⟩
    · split_ifs
      · exact ⟨i1.trans p1, i2.trans p2, i3.trans p3, i4.trans p4⟩
      · exact ⟨k1, k2, k3, k4⟩
  · rw [handleKeyPress_invalid (by simpa using h)]
    exact ⟨rfl, rfl, rfl, rfl⟩

theorem handleKeyRelease_grids (r : Fin NUM_ROWS) (c : Fin NUM_COLS) (s : KState) :
    (handleKeyRelease r c s).1.rawState = s.rawState ∧
      (handleKeyRelease r c s).1.lastRaw = s.lastRaw ∧
      (handleKeyRelease r c s).1.debounced = s.debounced ∧
      (handleKeyRelease r c s).1.lastChange = s.lastChange := by
  by_cases h : (keymap (r, c)).valid = true
  · rw [handleKeyRelease_valid h]
    obtain ⟨p1, p2, p3, p4, -, -⟩ := releaseModifiers_grids (keymap (r, c)).mods s
    obtain ⟨i1, i2, i3, i4⟩ := decPressedLED_grids (releaseModifiers (keymap (r, c)).mods s).1
    obtain ⟨k1, k2, k3, k4⟩ := decPressedLED_grids s
    split
    · exact ⟨i1.trans p1, i2.trans p2, i3.trans p3, i4.trans p4⟩
    · split_ifs
      · exact ⟨i1.trans p1, i2.trans p2, i3.trans p3, i4.trans p4⟩
      · exact ⟨k1, k2, k3, k4⟩
  · rw [handleKeyRelease_invalid (by simpa using h)]
    exact ⟨rfl, rfl, rfl, rfl⟩

theorem handleKeyPress_pc_led {r : Fin NUM_ROWS} {c : Fin NUM_COLS}
    (h : (keymap (r, c)).valid = true) (s : KState) :
    (handleKeyPress r c s).1.pressedCount = (s.pressedCount + 1) % U16 ∧
      (handleKeyPress r c s).1.ledPin =
        (if (s.pressedCount + 1) % U16 = 1 then true else s.ledPin) := by
  rw [handleKeyPress_valid h]
  obtain ⟨-, -, -, -, p5, p6⟩ := pressModifiers_grids (keymap (r, c)).mods s
  split <;> (try split_ifs) <;> constructor <;>
    simp_all [incPressedLED_pc, incPressedLED_led]

theorem handleKeyRelease_pc_led {r : Fin NUM_ROWS} {c : Fin NUM_COLS}
    (h : (keymap (r, c)).valid = true) (s : KState) :
    (handleKeyRelease r c s).1.pressedCount =
        (if 0 < s.pressedCount then s.pressedCount - 1 else s.pressedCount) ∧
      (handleKeyRelease r c s).1.ledPin =
        (if 0 < s.pressedCount ∧ s.pressedCount - 1 = 0 then false else s.ledPin) := by
  rw [handleKeyRelease_valid h]
  obtain ⟨-, -, -, -, p5, p6⟩ := releaseModifiers_grids (keymap (r, c)).mods s
  split <;> (try split_ifs) <;> constructor <;>
    simp_all [decPressedLED_pc, decPressedLED_led]

/-! ### Modifier-ledger lemmas (C5) -/

theorem refOf_pressModifiers (k : MKey) (m : Nat) (s : KState) :
    refOf k (pressModifiers m s).1 =
      (if maskHas k m then (refOf k s + 1) % U16 else refOf k s) := by
  cases k <;> rw [pressModifiers_eq] <;>
    simp [refOf, maskHas, maskBit] <;> split_ifs <;> simp_all

theorem refOf_releaseModifiers (k : MKey) (m : Nat) (s : KState) :
    refOf k (releaseModifiers m s).1 =
      (if maskHas k m ∧ 0 < refOf k s then refOf k s - 1 else refOf k s) := by
  cases k <;> rw [releaseModifiers_eq] <;>
    simp [refOf, maskHas, maskBit] <;> split_ifs <;> simp_all

theorem assertCount_append (k : MKey) (t1 t2 : List TCall) :
    assertCount k (t1 ++ t2) = assertCount k t1 + assertCount k t2 :=
  List.countP_append _ _ _

theorem deassertCount_append (k : MKey) (t1 t2 : List TCall) :
    deassertCount k (t1 ++ t2) = deassertCount k t1 + deassertCount k t2 :=
  List.countP_append _ _ _

theorem assertCount_pressModifiers (k : MKey) (m : Nat) (s : KState) :
    assertCount k (pressModifiers m s).2 =
      (if maskHas k m ∧ refOf k s = 0 then 1 else 0) := by
  cases k <;> rw [pressModifiers_eq] <;>
    simp only [assertCount, maskHas, maskBit, refOf, List.countP_append] <;>
    split_ifs <;>
    simp_all [List.countP, List.countP.go, modCode, MODIFIERKEY_LEFT_CTRL,
      MODIFIERKEY_LEFT_ALT, MODIFIERKEY_LEFT_SHIFT]

theorem deassertCount_pressModifiers (k : MKey) (m : Nat) (s : KState) :
    deassertCount k (pressModifiers m s).2 = 0 := by
  cases k <;> rw [pressModifiers_eq] <;>
    simp only [deassertCount, List.countP_append] <;>
    split_ifs <;> simp_all [List.countP, List.countP.go]

theorem assertCount_releaseModifiers (k : MKey) (m : Nat) (s : KState) :
    assertCount k (releaseModifiers m s).2 = 0 := by
  cases k <;> rw [releaseModifiers_eq] <;>
    simp only [assertCount, List.countP_append] <;>
    split_ifs <;> simp_all [List.countP, List.countP.go]

theorem deassertCount_releaseModifiers (k : MKey) (m : Nat) (s : KState) :
    deassertCount k (releaseModifiers m s).2 =
      (if maskHas k m ∧ refOf k s = 1 then 1 else 0) := by
  cases k <;> rw [releaseModifiers_eq] <;>
    simp only [deassertCount, maskHas, maskBit, refOf, List.countP_append] <;>
    split_ifs <;>
    simp_all [List.countP, List.countP.go, modCode, MODIFIERKEY_LEFT_CTRL,
      MODIFIERKEY_LEFT_ALT, MODIFIERKEY_LEFT_SHIFT]

theorem mop_step (k : MKey) (op : MOp) (s : KState) (h : refOf k s < U16) :
    refOf k (applyMOp op s).1 < U16 ∧
      assertCount k (applyMOp op s).2 =
        (if refOf k s = 0 ∧ refOf k (applyMOp op s).1 = 1 then 1 else 0) ∧
      deassertCount k (applyMOp op s).2 =
        (if refOf k s = 1 ∧ refOf k (applyMOp op s).1 = 0 then 1 else 0) := by
  have hU : 1 < U16 := by norm_num [U16]
  cases op with
  | hold m =>
    simp only [applyMOp, refOf_pressModifiers, assertCount_pressModifiers,
      deassertCount_pressModifiers, U16] at h ⊢
    by_cases hm : maskHas k m = true <;>
      simp only [hm, eq_self_iff_true, true_and, false_and, Bool.false_eq_true,
        if_true, if_false] <;>
      (try split_ifs) <;>
      refine ⟨?_, ?_, ?_⟩ <;> (try split_ifs) <;> omega
  | unhold m =>
    simp only [applyMOp, refOf_releaseModifiers, assertCount_releaseModifiers,
      deassertCount_releaseModifiers]
    by_cases hm : maskHas k m = true <;>
      simp only [hm, eq_self_iff_true, true_and, false_and, Bool.false_eq_true,
        if_true, if_false] <;>
      (try split_ifs) <;>
      refine ⟨?_, ?_, ?_⟩ <;> (try split_ifs) <;> omega

/-- C5: over every sequence of `hold`/`unhold` calls, the transport
receives exactly one assert per 0→1 counter transition and one deassert
per 1→0 counter transition of each modifier, and `unhold` of a modifier
whose counter is already zero leaves the counter at zero and emits no
deassert (the counter is guarded and never underflows). -/
theorem c5_modifier_refcounting (k : MKey) (ops : List MOp) (s : KState)
    (h : refOf k s < U16) :
    assertCount k (runMOps ops s).2 = trans01 k ops s ∧
      deassertCount k (runMOps ops s).2 = trans10 k ops s ∧
      (∀ (m : Nat) (t : KState), refOf k t = 0 →
        refOf k (releaseModifiers m t).1 = 0 ∧
          deassertCount k (releaseModifiers m t).2 = 0) := by
  refine ⟨?_, ?_, ?_⟩
  · induction ops generalizing s with
    | nil => simp [runMOps, trans01, assertCount, List.countP_nil]
    | cons op ops ih =>
      obtain ⟨hlt, ha, -⟩ := mop_step k op s h
      simp only [runMOps, trans01, assertCount_append, ha, ih _ hlt]
  · induction ops generalizing s with
    | nil => simp [runMOps, trans10, deassertCount, List.countP_nil]
    | cons op ops ih =>
      obtain ⟨hlt, -, hd⟩ := mop_step k op s h
      simp only [runMOps, trans10, deassertCount_append, hd, ih _ hlt]
  · intro m t ht
    rw [refOf_releaseModifiers, deassertCount_releaseModifiers]
    simp [ht]

/-- Witness for C5 at a concrete run: hold Ctrl twice then unhold twice
from the initial state. -/
theorem c5_modifier_refcounting_witness :
    refOf MKey.ctrl keyboardInit < U16 ∧
      assertCount MKey.ctrl
          (runMOps [MOp.hold MOD_LCTRL, MOp.hold MOD_LCTRL,
            MOp.unhold MOD_LCTRL, MOp.unhold MOD_LCTRL] keyboardInit).2 =
        trans01 MKey.ctrl
          [MOp.hold MOD_LCTRL, MOp.hold MOD_LCTRL,
            MOp.unhold MOD_LCTRL, MOp.unhold MOD_LCTRL] keyboardInit :=
  ⟨by decide,
    (c5_modifier_refcounting MKey.ctrl
      [MOp.hold MOD_LCTRL, MOp.hold MOD_LCTRL, MOp.unhold MOD_LCTRL, MOp.unhold MOD_LCTRL]
      keyboardInit (by decide)).1⟩

/-! ### Counting lemmas for the pressed-count invariant (C1) -/

theorem vCount_eq_sum (d : Cell → Bool) :
    vCount d = ∑ x : Cell, (if d x = true ∧ (keymap x).valid = true then 1 else 0) := by
  unfold vCount
  exact Finset.card_filter _ _

theorem vCount_update (d : Cell → Bool) (i : Cell) (v : Bool) :
    vCount (Function.update d i v) +
        (if d i = true ∧ (keymap i).valid = true then 1 else 0) =
      vCount d + (if v = true ∧ (keymap i).valid = true then 1 else 0) := by
  rw [vCount_eq_sum, vCount_eq_sum]
  rw [← Finset.add_sum_erase Finset.univ _ (Finset.mem_univ i),
    ← Finset.add_sum_erase Finset.univ
      (fun x => if d x = true ∧ (keymap x).valid = true then 1 else 0) (Finset.mem_univ i)]
  have hs : ∀ x ∈ Finset.univ.erase i,
      (if Function.update d i v x = true ∧ (keymap x).valid = true then 1 else 0) =
        (if d x = true ∧ (keymap x).valid = true then (1 : Nat) else 0) := by
    intro x hx
    rw [Function.update_noteq (Finset.ne_of_mem_erase hx)]
  rw [Finset.sum_congr rfl hs, Function.update_same]
  omega

theorem vCount_pos (d : Cell → Bool) (i : Cell) (hd : d i = true)
    (hv : (keymap i).valid = true) : 0 < vCount d := by
  refine Finset.card_pos.mpr ⟨i, ?_⟩
  simp [Finset.mem_filter, hd, hv]

theorem vCount_le (d : Cell → Bool) : vCount d ≤ 140 := by
  have h := Finset.card_filter_le (Finset.univ : Finset Cell)
    (fun x => d x = true ∧ (keymap x).valid = true)
  have hc : (Finset.univ : Finset Cell).card = 140 := by
    simp only [Finset.card_univ, Fintype.card_prod, Fintype.card_fin]
    rfl
  unfold vCount
  omega

theorem vCount_update_invalid (d : Cell → Bool) (i : Cell) (v : Bool)
    (hv : (keymap i).valid = false) : vCount (Function.update d i v) = vCount d := by
  have h := vCount_update d i v
  rw [hv] at h
  simp at h
  omega

/-! ### The effect of one scan step, in closed form -/

theorem scanStep_eq (now : Nat) (cell : Cell) (s : KState) :
    scanStep now cell s =
      if s.debounced cell ≠ s.rawState cell ∧
          DEBOUNCE_MS ≤ sub32 now
            (if s.rawState cell ≠ s.lastRaw cell then now else s.lastChange cell) then
        ((if s.rawState cell then
            handleKeyPress cell.1 cell.2
              (if s.rawState cell ≠ s.lastRaw cell then
                { s with
                    lastRaw := Function.update s.lastRaw cell (s.rawState cell)
                    lastChange := Function.update s.lastChange cell now
                    debounced := Function.update s.debounced cell (s.rawState cell) }
              else { s with debounced := Function.update s.debounced cell (s.rawState cell) })
          else
            handleKeyRelease cell.1 cell.2
              (if s.rawState cell ≠ s.lastRaw cell then
                { s with
                    lastRaw := Function.update s.lastRaw cell (s.rawState cell)
                    lastChange := Function.update s.lastChange cell now
                    debounced := Function.update s.debounced cell (s.rawState cell) }
              else { s with debounced := Function.update s.debounced cell (s.rawState cell) })).1,
         (if s.rawState cell then
            handleKeyPress cell.1 cell.2
              (if s.rawState cell ≠ s.lastRaw cell then
                { s with
                    lastRaw := Function.update s.lastRaw cell (s.rawState cell)
                    lastChange := Function.update s.lastChange cell now
                    debounced := Function.update s.debounced cell (s.rawState cell) }
              else { s with debounced := Function.update s.debounced cell (s.rawState cell) })
          else
            handleKeyRelease cell.1 cell.2
              (if s.rawState cell ≠ s.lastRaw cell then
                { s with
                    lastRaw := Function.update s.lastRaw cell (s.rawState cell)
                    lastChange := Function.update s.lastChange cell now
                    debounced := Function.update s.debounced cell (s.rawState cell) }
              else { s with debounced := Function.update s.debounced cell (s.rawState cell) })).2,
         [(cell, s.rawState cell)])
      else
        (if s.rawState cell ≠ s.lastRaw cell then
          { s with
              lastRaw := Function.update s.lastRaw cell (s.rawState cell)
              lastChange := Function.update s.lastChange cell now }
        else s, [], []) := by
  unfold scanStep
  dsimp only
  by_cases hedge : s.rawState cell ≠ s.lastRaw cell
  · simp only [if_pos hedge]
    simp only [Function.update_same]
  · simp only [if_neg hedge]

/-! ### Invariant preservation through dispatch and scan -/

theorem inv1_dispatch (s t : KState) (cell : Cell) (v : Bool)
    (hpcT : t.pressedCount = s.pressedCount)
    (hdebT : t.debounced = Function.update s.debounced cell v)
    (hledT : t.ledPin = s.ledPin)
    (h : inv1 s) (hd : s.debounced cell ≠ v) :
    inv1 (if v then handleKeyPress cell.1 cell.2 t else handleKeyRelease cell.1 cell.2 t).1 := by
  obtain ⟨hpc0, hled0⟩ := h
  have hle := vCount_le s.debounced
  by_cases hv : (keymap cell).valid = true
  · have hvv : (keymap (cell.1, cell.2)).valid = true := hv
    cases v with
    | true =>
      have hdc : s.debounced cell = false := by
        cases hdc : s.debounced cell with
        | false => rfl
        | true => exact absurd hdc hd
      have hcnt := vCount_update s.debounced cell true
      rw [hdc, hv] at hcnt
      simp only [Bool.false_eq_true, false_and, and_true, if_false, if_true,
        eq_self_iff_true, true_and, Nat.add_zero] at hcnt
      obtain ⟨hp, hl⟩ := handleKeyPress_pc_led hvv t
      obtain ⟨-, -, hg, -⟩ := handleKeyPress_grids cell.1 cell.2 t
      have hmod : (t.pressedCount + 1) % U16 = t.pressedCount + 1 := by
        rw [hpcT, hpc0]
        unfold U16
        omega
      show inv1 (handleKeyPress cell.1 cell.2 t).1
      constructor
      · rw [hp, hg, hdebT, hmod, hpcT, hpc0]
        omega
      · rw [hl, hp, hmod, hpcT, hpc0]
        split_ifs with h1
        · simp only [true_iff]
          omega
        · have hlt : t.ledPin = true := by
            rw [hledT]
            exact hled0.mpr (by omega)
          simp only [hlt, true_iff]
          omega
    | false =>
      have hdc : s.debounced cell = true := by
        cases hdc : s.debounced cell with
        | true => rfl
        | false => exact absurd hdc hd
      have hcnt := vCount_update s.debounced cell false
      rw [hdc, hv] at hcnt
      simp only [Bool.false_eq_true, false_and, and_true, if_false, if_true,
        eq_self_iff_true, true_and, Nat.add_zero] at hcnt
      have hpos := vCount_pos s.debounced cell hdc hv
      obtain ⟨hp, hl⟩ := handleKeyRelease_pc_led hvv t
      obtain ⟨-, -, hg, -⟩ := handleKeyRelease_grids cell.1 cell.2 t
      show inv1 (handleKeyRelease cell.1 cell.2 t).1
      constructor
      · rw [hp, hg, hdebT, hpcT, hpc0]
        split_ifs with h1 <;> omega
      · rw [hl, hp, hpcT, hpc0]
        split_ifs with h1 h2 <;>
          first
            | (simp only [Bool.false_eq_true, false_iff]
               omega)
            | (exact absurd h1.1 (by omega))
            | (exact absurd hpos (by omega))
            | (have hlt : t.ledPin = true := by
                 rw [hledT]
                 exact hled0.mpr (by omega)
               simp only [hlt, true_iff]
               omega)
  · have hvf : (keymap cell).valid = false := by simpa using hv
    have hinv := vCount_update_invalid s.debounced cell v hvf
    have hvv : (keymap (cell.1, cell.2)).valid = false := hvf
    cases v with
    | true =>
      show inv1 (handleKeyPress cell.1 cell.2 t).1
      rw [handleKeyPress_invalid hvv]
      refine ⟨?_, ?_⟩
      · rw [hpcT, hpc0, hdebT, hinv]
      · rw [hledT, hpcT]
        exact hled0
    | false =>
      show inv1 (handleKeyRelease cell.1 cell.2 t).1
      rw [handleKeyRelease_invalid hvv]
      refine ⟨?_, ?_⟩
      · rw [hpcT, hpc0, hdebT, hinv]
      · rw [hledT, hpcT]
        exact hled0

theorem scanStep_inv (now : Nat) (cell : Cell) (s : KState) (h : inv1 s) :
    inv1 (scanStep now cell s).1 := by
  rw [scanStep_eq]
  split <;> split <;>
    first
      | exact h
      | (rename_i hcommit
         exact inv1_dispatch s _ cell (s.rawState cell) rfl rfl rfl h hcommit.1)

theorem runCells_scan_inv (now : Nat) :
    ∀ (L : List Cell) (s : KState), inv1 s → inv1 (runCells (scanStep now) L s).1 := by
  intro L
  induction L with
  | nil => intro s h; exact h
  | cons x xs ih =>
    intro s h
    unfold runCells
    exact ih _ (scanStep_inv now x s h)

theorem keyboardScan_inv (now : Nat) (input : Cell → Bool) (s : KState) (h : inv1 s) :
    inv1 (keyboardScan now input s).1 := by
  unfold keyboardScan
  exact runCells_scan_inv now allCells _ h

/-! ### Properties of `relStep`, `runRel` and `keyboardReleaseAll` -/

theorem relStep_debounced (z : Cell) (t : KState) (y : Cell) :
    (relStep z t).1.debounced y = (if y = z then false else t.debounced y) := by
  unfold relStep
  dsimp only
  split
  · obtain ⟨-, -, hg, -⟩ := handleKeyRelease_grids z.1 z.2 t
    by_cases hy : y = z
    · subst hy
      rw [if_pos rfl]
      dsimp only
      rw [Function.update_same]
    · rw [if_neg hy]
      dsimp only
      rw [Function.update_noteq hy, hg]
  · rename_i hnd
    by_cases hy : y = z
    · subst hy
      rw [if_pos rfl]
      simpa using hnd
    · rw [if_neg hy]

theorem relStep_grids (z : Cell) (t : KState) :
    (relStep z t).1.rawState = t.rawState ∧
      (relStep z t).1.lastRaw = t.lastRaw ∧
      (relStep z t).1.lastChange = t.lastChange := by
  unfold relStep
  dsimp only
  split
  · obtain ⟨h1, h2, -, h4⟩ := handleKeyRelease_grids z.1 z.2 t
    exact ⟨h1, h2, h4⟩
  · exact ⟨rfl, rfl, rfl⟩

theorem runRel_debounced :
    ∀ (L : List Cell) (t : KState) (y : Cell),
      (runRel L t).1.debounced y = (if y ∈ L then false else t.debounced y) := by
  intro L
  induction L with
  | nil => intro t y; simp [runRel]
  | cons x xs ih =>
    intro t y
    unfold runRel
    dsimp only
    rw [ih, relStep_debounced]
    by_cases hm : y ∈ xs
    · simp [hm, List.mem_cons]
    · by_cases hx : y = x <;> simp [hm, hx, List.mem_cons]

theorem runRel_grids :
    ∀ (L : List Cell) (t : KState),
      (runRel L t).1.rawState = t.rawState ∧
        (runRel L t).1.lastRaw = t.lastRaw ∧
        (runRel L t).1.lastChange = t.lastChange := by
  intro L
  induction L with
  | nil => intro t; exact ⟨rfl, rfl, rfl⟩
  | cons x xs ih =>
    intro t
    unfold runRel
    dsimp only
    obtain ⟨h1, h2, h3⟩ := relStep_grids x t
    obtain ⟨g1, g2, g3⟩ := ih (relStep x t).1
    exact ⟨g1.trans h1, g2.trans h2, g3.trans h3⟩

theorem mem_allCells (y : Cell) : y ∈ allCells := by
  unfold allCells
  rw [List.mem_flatMap]
  exact ⟨y.1, List.mem_finRange y.1,
    List.mem_map.mpr ⟨y.2, List.mem_finRange y.2, rfl⟩⟩

theorem allCells_nodup : List.Nodup allCells := by decide

theorem keyboardReleaseAll_post (s : KState) :
    (keyboardReleaseAll s).1.refCtrl = 0 ∧
      (keyboardReleaseAll s).1.refAlt = 0 ∧
      (keyboardReleaseAll s).1.refShift = 0 ∧
      (keyboardReleaseAll s).1.pressedCount = 0 ∧
      (keyboardReleaseAll s).1.ledPin = false ∧
      (∀ y, (keyboardReleaseAll s).1.debounced y = false) ∧
      (keyboardReleaseAll s).1.rawState = s.rawState ∧
      (keyboardReleaseAll s).1.lastRaw = s.lastRaw ∧
      (keyboardReleaseAll s).1.lastChange = s.lastChange := by
  obtain ⟨g1, g2, g3⟩ := runRel_grids allCells s
  unfold keyboardReleaseAll
  dsimp only
  refine ⟨?_, ?_, ?_, rfl, rfl, ?_, ?_, ?_, ?_⟩
  · split_ifs <;> simp_all
  · split_ifs <;> simp_all
  · split_ifs <;> simp_all
  · intro y
    have hdeb := runRel_debounced allCells s y
    rw [if_pos (mem_allCells y)] at hdeb
    split_ifs <;> simpa using hdeb
  · split_ifs <;> simpa using g1
  · split_ifs <;> simpa using g2
  · split_ifs <;> simpa using g3

theorem vCount_false (d : Cell → Bool) (h : ∀ y, d y = false) : vCount d = 0 := by
  unfold vCount
  rw [Finset.card_eq_zero, Finset.filter_eq_empty_iff]
  intro x _
  simp [h x]

theorem keyboardReleaseAll_inv (s : KState) : inv1 (keyboardReleaseAll s).1 := by
  obtain ⟨-, -, -, hpc, hled, hdeb, -, -, -⟩ := keyboardReleaseAll_post s
  constructor
  · rw [hpc, vCount_false _ hdeb]
  · rw [hled, hpc]
    simp

theorem inv1_keyboardInit : inv1 keyboardInit := by
  constructor
  · show (0 : Nat) = vCount (fun _ => false)
    rw [vCount_false _ (fun _ => rfl)]
  · simp [keyboardInit]

theorem runOps_inv : ∀ (ops : List Op) (s : KState), inv1 s → inv1 (runOps ops s) := by
  intro ops
  induction ops with
  | nil => intro s h; exact h
  | cons op ops ih =>
    intro s h
    unfold runOps
    refine ih _ ?_
    cases op with
    | scan now input => exact keyboardScan_inv now input s h
    | releaseAll => exact keyboardReleaseAll_inv s

/-! ### Per-cell effect of a scan step -/

theorem scanStep_rawState (now : Nat) (x : Cell) (s : KState) :
    (scanStep now x s).1.rawState = s.rawState := by
  rw [scanStep_eq]
  split <;> split <;>
    first
      | rfl
      | (dsimp only
         split <;>
           first
             | (obtain ⟨h1, -, -, -⟩ := handleKeyPress_grids x.1 x.2 _
                rw [h1])
             | (obtain ⟨h1, -, -, -⟩ := handleKeyRelease_grids x.1 x.2 _
                rw [h1]))

theorem scanStep_debounced_other (now : Nat) (x : Cell) (s : KState) (y : Cell) (hne : y ≠ x) :
    (scanStep now x s).1.debounced y = s.debounced y := by
  rw [scanStep_eq]
  split <;> split <;>
    first
      | rfl
      | (dsimp only
         split <;>
           (first
             | (obtain ⟨-, -, h3, -⟩ := handleKeyPress_grids x.1 x.2 _
                rw [h3])
             | (obtain ⟨-, -, h3, -⟩ := handleKeyRelease_grids x.1 x.2 _
                rw [h3])) <;>
           (dsimp only
            rw [Function.update_noteq hne]))

theorem scanStep_lastRaw_other (now : Nat) (x : Cell) (s : KState) (y : Cell) (hne : y ≠ x) :
    (scanStep now x s).1.lastRaw y = s.lastRaw y := by
  rw [scanStep_eq]
  split <;> split <;>
    first
      | rfl
      | (dsimp only
         rw [Function.update_noteq hne])
      | (dsimp only
         split <;>
           (first
             | (obtain ⟨-, h2, -, -⟩ := handleKeyPress_grids x.1 x.2 _
                rw [h2])
             | (obtain ⟨-, h2, -, -⟩ := handleKeyRelease_grids x.1 x.2 _
                rw [h2])) <;>
           first
             | rfl
             | (dsimp only
                rw [Function.update_noteq hne]))

theorem scanStep_lastChange_other (now : Nat) (x : Cell) (s : KState) (y : Cell) (hne : y ≠ x) :
    (scanStep now x s).1.lastChange y = s.lastChange y := by
  rw [scanStep_eq]
  split <;> split <;>
    first
      | rfl
      | (dsimp only
         rw [Function.update_noteq hne])
      | (dsimp only
         split <;>
           (first
             | (obtain ⟨-, -, -, h4⟩ := handleKeyPress_grids x.1 x.2 _
                rw [h4])
             | (obtain ⟨-, -, -, h4⟩ := handleKeyRelease_grids x.1 x.2 _
                rw [h4])) <;>
           first
             | rfl
             | (dsimp only
                rw [Function.update_noteq hne]))

theorem scanStep_lastRaw_self (now : Nat) (x : Cell) (s : KState) :
    (scanStep now x s).1.lastRaw x = s.rawState x := by
  rw [scanStep_eq]
  split <;> rename_i hedge <;> split <;>
    first
      | (exact (not_ne_iff.mp hedge).symm)
      | (dsimp only
         rw [Function.update_same])
      | (dsimp only
         split <;>
           (first
             | (obtain ⟨-, h2, -, -⟩ := handleKeyPress_grids x.1 x.2 _
                rw [h2])
             | (obtain ⟨-, h2, -, -⟩ := handleKeyRelease_grids x.1 x.2 _
                rw [h2])) <;>
           first
             | (exact (not_ne_iff.mp hedge).symm)
             | (dsimp only
                rw [Function.update_same]))

theorem scanStep_lastChange_self (now : Nat) (x : Cell) (s : KState) :
    (scanStep now x s).1.lastChange x =
      (if s.rawState x ≠ s.lastRaw x then now else s.lastChange x) := by
  rw [scanStep_eq]
  split <;> split <;>
    first
      | rfl
      | (dsimp only
         rw [Function.update_same])
      | (dsimp only
         split <;>
           (first
             | (obtain ⟨-, -, -, h4⟩ := handleKeyPress_grids x.1 x.2 _
                rw [h4])
             | (obtain ⟨-, -, -, h4⟩ := handleKeyRelease_grids x.1 x.2 _
                rw [h4])) <;>
           first
             | rfl
             | (dsimp only
                rw [Function.update_same]))

theorem scanStep_commit (now : Nat) (x : Cell) (s : KState)
    (h : s.debounced x ≠ s.rawState x ∧
      DEBOUNCE_MS ≤ sub32 now
        (if s.rawState x ≠ s.lastRaw x then now else s.lastChange x)) :
    (scanStep now x s).1.debounced x = s.rawState x ∧
      (scanStep now x s).2.2 = [(x, s.rawState x)] := by
  rw [scanStep_eq, if_pos h]
  constructor
  · dsimp only
    split
    · obtain ⟨-, -, h3, -⟩ := handleKeyPress_grids x.1 x.2 _
      rw [h3]
      split <;> (dsimp only; rw [Function.update_same])
    · obtain ⟨-, -, h3, -⟩ := handleKeyRelease_grids x.1 x.2 _
      rw [h3]
      split <;> (dsimp only; rw [Function.update_same])
  · rfl

theorem scanStep_nocommit (now : Nat) (x : Cell) (s : KState)
    (h : ¬ (s.debounced x ≠ s.rawState x ∧
      DEBOUNCE_MS ≤ sub32 now
        (if s.rawState x ≠ s.lastRaw x then now else s.lastChange x))) :
    (scanStep now x s).1.debounced x = s.debounced x ∧
      (scanStep now x s).2.2 = [] := by
  rw [scanStep_eq, if_neg h]
  constructor
  · split <;> rfl
  · split <;> rfl

theorem scanStep_events_shape (now : Nat) (x : Cell) (s : KState) :
    (scanStep now x s).2.2 = [] ∨ (scanStep now x s).2.2 = [(x, s.rawState x)] := by
  rw [scanStep_eq]
  split <;> split <;>
    first
      | (left; rfl)
      | (right; rfl)

/-! ### `eventsFor` helper lemmas -/

theorem eventsFor_append (cell : Cell) (a b : List (Cell × Bool)) :
    eventsFor cell (a ++ b) = eventsFor cell a ++ eventsFor cell b :=
  List.filter_append _ _

theorem eventsFor_nil (cell : Cell) : eventsFor cell [] = [] := rfl

theorem eventsFor_single_ne (cell x : Cell) (b : Bool) (hne : x ≠ cell) :
    eventsFor cell [(x, b)] = [] := by
  simp [eventsFor, hne]

theorem eventsFor_single_self (cell : Cell) (b : Bool) :
    eventsFor cell [(cell, b)] = [(cell, b)] := by
  simp [eventsFor]

/-! ### Composition lemmas for the scan fold -/

theorem runCells_rawState (now : Nat) :
    ∀ (L : List Cell) (s : KState),
      (runCells (scanStep now) L s).1.rawState = s.rawState := by
  intro L
  induction L with
  | nil => intro s; rfl
  | cons x xs ih =>
    intro s
    unfold runCells
    dsimp only
    rw [ih, scanStep_rawState]

theorem runCells_other (now : Nat) :
    ∀ (L : List Cell) (s : KState) (cell : Cell), cell ∉ L →
      (runCells (scanStep now) L s).1.lastRaw cell = s.lastRaw cell ∧
        (runCells (scanStep now) L s).1.lastChange cell = s.lastChange cell ∧
        (runCells (scanStep now) L s).1.debounced cell = s.debounced cell ∧
        eventsFor cell (runCells (scanStep now) L s).2.2 = [] := by
  intro L
  induction L with
  | nil => intro s cell _; exact ⟨rfl, rfl, rfl, rfl⟩
  | cons x xs ih =>
    intro s cell hmem
    have hne : cell ≠ x := fun h => hmem (h ▸ List.mem_cons_self x xs)
    have hxs : cell ∉ xs := fun h => hmem (List.mem_cons_of_mem x h)
    unfold runCells
    dsimp only
    obtain ⟨i1, i2, i3, i4⟩ := ih (scanStep now x s).1 cell hxs
    refine ⟨?_, ?_, ?_, ?_⟩
    · rw [i1, scanStep_lastRaw_other now x s cell hne]
    · rw [i2, scanStep_lastChange_other now x s cell hne]
    · rw [i3, scanStep_debounced_other now x s cell hne]
    · rw [eventsFor_append, i4]
      rcases scanStep_events_shape now x s with he | he <;> rw [he]
      · rfl
      · rw [eventsFor_single_ne cell x _ (Ne.symm hne)]
        rfl

theorem runCells_append (now : Nat) :
    ∀ (l1 l2 : List Cell) (s : KState),
      runCells (scanStep now) (l1 ++ l2) s =
        ((runCells (scanStep now) l2 (runCells (scanStep now) l1 s).1).1,
         (runCells (scanStep now) l1 s).2.1 ++
           (runCells (scanStep now) l2 (runCells (scanStep now) l1 s).1).2.1,
         (runCells (scanStep now) l1 s).2.2 ++
           (runCells (scanStep now) l2 (runCells (scanStep now) l1 s).1).2.2) := by
  intro l1
  induction l1 with
  | nil => intro l2 s; rfl
  | cons x xs ih =>
    intro l2 s
    have hc : ∀ (L : List Cell) (t : KState),
        runCells (scanStep now) (x :: L) t =
          ((runCells (scanStep now) L (scanStep now x t).1).1,
           (scanStep now x t).2.1 ++ (runCells (scanStep now) L (scanStep now x t).1).2.1,
           (scanStep now x t).2.2 ++ (runCells (scanStep now) L (scanStep now x t).1).2.2) :=
      fun L t => rfl
    show runCells (scanStep now) (x :: (xs ++ l2)) s = _
    rw [hc]
    simp only [hc, ih]
    simp [List.append_assoc]

theorem allCells_split (cell : Cell) :
    ∃ l1 l2, allCells = l1 ++ cell :: l2 ∧ cell ∉ l1 ∧ cell ∉ l2 := by
  obtain ⟨l1, l2, heq⟩ := List.append_of_mem (mem_allCells cell)
  have hnd := allCells_nodup
  rw [heq, List.nodup_append] at hnd
  obtain ⟨h1, h2, hdis⟩ := hnd
  refine ⟨l1, l2, heq, ?_, (List.nodup_cons.mp h2).1⟩
  intro hmem
  exact hdis hmem (List.mem_cons_self cell l2)

/-! ### The effect of one whole scan cycle on a single cell -/

theorem keyboardScan_cell (now : Nat) (input : Cell → Bool) (s : KState) (cell : Cell) :
    (keyboardScan now input s).1.rawState = input ∧
      (keyboardScan now input s).1.lastRaw cell = input cell ∧
      (keyboardScan now input s).1.lastChange cell =
        (if input cell ≠ s.lastRaw cell then now else s.lastChange cell) ∧
      ((s.debounced cell ≠ input cell ∧
          DEBOUNCE_MS ≤ sub32 now
            (if input cell ≠ s.lastRaw cell then now else s.lastChange cell)) →
        ((keyboardScan now input s).1.debounced cell = input cell ∧
          eventsFor cell (keyboardScan now input s).2.2 = [(cell, input cell)])) ∧
      (¬ (s.debounced cell ≠ input cell ∧
          DEBOUNCE_MS ≤ sub32 now
            (if input cell ≠ s.lastRaw cell then now else s.lastChange cell)) →
        ((keyboardScan now input s).1.debounced cell = s.debounced cell ∧
          eventsFor cell (keyboardScan now input s).2.2 = [])) := by
  obtain ⟨l1, l2, heq, hn1, hn2⟩ := allCells_split cell
  unfold keyboardScan
  rw [heq, runCells_append]
  obtain ⟨m1, m2, m3, m4⟩ :=
    runCells_other now l1 { s with rawState := input } cell hn1
  have mraw : (runCells (scanStep now) l1 { s with rawState := input }).1.rawState = input :=
    runCells_rawState now l1 _
  set sMid := (runCells (scanStep now) l1 { s with rawState := input }).1 with hsMid
  have hcons :
      runCells (scanStep now) (cell :: l2) sMid =
        ((runCells (scanStep now) l2 (scanStep now cell sMid).1).1,
         (scanStep now cell sMid).2.1 ++
           (runCells (scanStep now) l2 (scanStep now cell sMid).1).2.1,
         (scanStep now cell sMid).2.2 ++
           (runCells (scanStep now) l2 (scanStep now cell sMid).1).2.2) := rfl
  rw [hcons]
  dsimp only
  obtain ⟨o1, o2, o3, o4⟩ := runCells_other now l2 (scanStep now cell sMid).1 cell hn2
  have hraw2 : sMid.rawState cell = input cell := by rw [mraw]
  have hcond :
      (sMid.debounced cell ≠ sMid.rawState cell ∧
          DEBOUNCE_MS ≤ sub32 now
            (if sMid.rawState cell ≠ sMid.lastRaw cell then now else sMid.lastChange cell)) ↔
        (s.debounced cell ≠ input cell ∧
          DEBOUNCE_MS ≤ sub32 now
            (if input cell ≠ s.lastRaw cell then now else s.lastChange cell)) := by
    rw [hraw2, m1, m2, m3]
  refine ⟨?_, ?_, ?_, ?_, ?_⟩
  · rw [runCells_rawState now l2 _, scanStep_rawState, mraw]
  · rw [o1, scanStep_lastRaw_self, hraw2]
  · rw [o2, scanStep_lastChange_self, hraw2, m1, m2]
  · intro h
    obtain ⟨d1, d2⟩ := scanStep_commit now cell sMid (hcond.mpr h)
    constructor
    · rw [o3, d1, hraw2]
    · rw [eventsFor_append, eventsFor_append, m4, o4, d2, eventsFor_single_self, hraw2]
      simp
  · intro h
    obtain ⟨d1, d2⟩ := scanStep_nocommit now cell sMid (fun hc => h (hcond.mp hc))
    constructor
    · rw [o3, d1, m3]
    · rw [eventsFor_append, eventsFor_append, m4, o4, d2, eventsFor_nil]
      simp

theorem sub32_self (a : Nat) : sub32 a a = 0 := by
  unfold sub32
  rw [Nat.add_sub_cancel_left, Nat.mod_self]

/-- Once a cell's debounced value agrees with its raw input, scan cycles
whose raw input keeps that value emit no events for the cell and leave its
debounced value unchanged. -/
theorem runScanEvents_agree :
    ∀ (scans : List (Nat × (Cell → Bool))) (s : KState) (cell : Cell) (v : Bool),
      s.debounced cell = v → (∀ p ∈ scans, p.2 cell = v) →
      (runScanEvents scans s).1.debounced cell = v ∧
        eventsFor cell (runScanEvents scans s).2 = [] := by
  intro scans
  induction scans with
  | nil => intro s cell v hd _; exact ⟨hd, rfl⟩
  | cons p ps ih =>
    intro s cell v hd hall
    have hp : p.2 cell = v := hall p (List.mem_cons_self p ps)
    obtain ⟨-, -, -, -, hnc⟩ := keyboardScan_cell p.1 p.2 s cell
    have hncond : ¬ (s.debounced cell ≠ p.2 cell ∧
        DEBOUNCE_MS ≤ sub32 p.1
          (if p.2 cell ≠ s.lastRaw cell then p.1 else s.lastChange cell)) := by
      intro hc
      exact hc.1 (hd.trans hp.symm)
    obtain ⟨hdeb, hev⟩ := hnc hncond
    have hall2 : ∀ q ∈ ps, q.2 cell = v := fun q hq => hall q (List.mem_cons_of_mem p hq)
    obtain ⟨j1, j2⟩ := ih (keyboardScan p.1 p.2 s).1 cell v (by rw [hdeb, hd]) hall2
    constructor
    · show (runScanEvents ps (keyboardScan p.1 p.2 s).1).1.debounced cell = v
      exact j1
    · show eventsFor cell ((keyboardScan p.1 p.2 s).2.2 ++
        (runScanEvents ps (keyboardScan p.1 p.2 s).1).2) = []
      rw [eventsFor_append, hev, j2]
      rfl

theorem runRel_nil_of_false :
    ∀ (L : List Cell) (t : KState), (∀ x, t.debounced x = false) →
      runRel L t = (t, []) := by
  intro L
  induction L with
  | nil => intro t _; rfl
  | cons x xs ih =>
    intro t h
    have hstep : relStep x t = (t, []) := by
      unfold relStep
      rw [if_neg]
      simp [h x]
    show runRel (x :: xs) t = (t, [])
    unfold runRel
    dsimp only
    rw [hstep]
    dsimp only
    rw [ih t h]
    rfl

theorem runCells_events_sublist (now : Nat) :
    ∀ (L : List Cell) (s : KState),
      ((runCells (scanStep now) L s).2.2.map Prod.fst).Sublist L := by
  intro L
  induction L with
  | nil => intro s; exact List.Sublist.refl []
  | cons x xs ih =>
    intro s
    show (((scanStep now x s).2.2 ++
        (runCells (scanStep now) xs (scanStep now x s).1).2.2).map Prod.fst).Sublist (x :: xs)
    rw [List.map_append]
    rcases scanStep_events_shape now x s with he | he <;> rw [he]
    · exact List.Sublist.cons x (ih (scanStep now x s).1)
    · exact List.Sublist.cons₂ x (ih (scanStep now x s).1)

/-! ### Concrete scenario runs, one scan at a time -/

theorem stateA1 : (keyboardScan 0 inp05 keyboardInit).1 = sA1 := by
  ext x <;> first
    | (revert x; decide)
    | decide

theorem stateA2 : (keyboardScan 5 inp05 sA1).1 = sA2 := by
  ext x <;> first
    | (revert x; decide)
    | decide

theorem stateA3 : (keyboardScan 6 inpNone sA2).1 = sA3 := by
  ext x <;> first
    | (revert x; decide)
    | decide

theorem traceA1 : (keyboardScan 0 inp05 keyboardInit).2.1 = [] := by decide

theorem traceA2 : (keyboardScan 5 inp05 sA1).2.1 = [] := by decide

theorem traceA3 : (keyboardScan 6 inpNone sA2).2.1 = [] := by decide

theorem traceA4 : (keyboardScan 11 inpNone sA3).2.1 = [] := by decide

/-! ### The claims -/

/-- C1 (amended): at every point reachable from the initial state by scan
cycles and release_all calls, the Pressed Count equals the number of cells
whose debounced entry is true AND whose keymap action is non-Empty, and
the activity indicator is on iff Pressed Count > 0.  (The original claim,
counting all debounced-true cells including Empty ones, fails: a raw press
of an Empty cell commits its debounced bit without touching the Pressed
Count; see the counterexample.) -/
theorem c1_theorem (ops : List Op) :
    (runOps ops keyboardInit).pressedCount =
        vCount (runOps ops keyboardInit).debounced ∧
      ((runOps ops keyboardInit).ledPin = true ↔
        0 < (runOps ops keyboardInit).pressedCount) :=
  runOps_inv ops keyboardInit inv1_keyboardInit

/-- C1 counterexample: after two scan cycles that press only the Empty
cell (0,5) (times 0 and 5 ms), the cell's debounced entry is true but the
Pressed Count is still 0, so Pressed Count differs from the number of
debounced-true cells. -/
theorem runOps_scan_cons (now : Nat) (input : Cell → Bool) (ops : List Op) (s : KState) :
    runOps (Op.scan now input :: ops) s = runOps ops (keyboardScan now input s).1 := rfl

theorem runOps_nil_eq (s : KState) : runOps [] s = s := rfl

theorem c1_counterexample :
    ¬ ((runOps [Op.scan 0 inp05, Op.scan 5 inp05] keyboardInit).pressedCount =
        debCount (runOps [Op.scan 0 inp05, Op.scan 5 inp05] keyboardInit)) := by
  have hpc : (keyboardScan 5 inp05 sA1).1.pressedCount = 0 := by decide
  have hdc : debCount (keyboardScan 5 inp05 sA1).1 = 1 := by decide
  rw [runOps_scan_cons, stateA1, runOps_scan_cons, runOps_nil_eq, hpc, hdc]
  omega

/-- C4: per-cell debounce correctness over one scan cycle (and stability
afterwards): (i) every raw edge resets the cell's last-change time to the
cycle timestamp; (ii) a cell whose raw value changed this cycle never
commits this cycle; (iii) a raw value stable for less than the debounce
interval does not commit; (iv) a raw value differing from the debounced
value and stable for at least the debounce interval commits, setting
debounced to the raw value and emitting exactly one event; (v) after
debounced equals the raw value, any further scans holding that raw value
emit no events for the cell, so the commit in (iv) happens exactly once. -/
theorem c4_theorem (now : Nat) (input : Cell → Bool) (s : KState) (cell : Cell) :
    (input cell ≠ s.lastRaw cell → (keyboardScan now input s).1.lastChange cell = now) ∧
      (input cell ≠ s.lastRaw cell →
        (keyboardScan now input s).1.debounced cell = s.debounced cell ∧
          eventsFor cell (keyboardScan now input s).2.2 = []) ∧
      (input cell = s.lastRaw cell → sub32 now (s.lastChange cell) < DEBOUNCE_MS →
        (keyboardScan now input s).1.debounced cell = s.debounced cell ∧
          eventsFor cell (keyboardScan now input s).2.2 = []) ∧
      (s.debounced cell ≠ input cell → input cell = s.lastRaw cell →
        DEBOUNCE_MS ≤ sub32 now (s.lastChange cell) →
        (keyboardScan now input s).1.debounced cell = input cell ∧
          eventsFor cell (keyboardScan now input s).2.2 = [(cell, input cell)]) ∧
      (∀ (scans : List (Nat × (Cell → Bool))),
        (∀ p ∈ scans, p.2 cell = s.debounced cell) →
        (runScanEvents scans s).1.debounced cell = s.debounced cell ∧
          eventsFor cell (runScanEvents scans s).2 = []) := by
  obtain ⟨-, -, k3, k4, k5⟩ := keyboardScan_cell now input s cell
  refine ⟨?_, ?_, ?_, ?_, ?_⟩
  · intro h
    rw [k3, if_pos h]
  · intro h
    refine k5 ?_
    rw [if_pos h, sub32_self]
    intro hc
    have : DEBOUNCE_MS ≤ 0 := hc.2
    simp [DEBOUNCE_MS] at this
  · intro h hshort
    refine k5 ?_
    intro hc
    rw [if_neg (fun hne => hne h)] at hc
    omega
  · intro hne heq hlong
    exact k4 ⟨hne, by rw [if_neg (fun hx => hx heq)]; exact hlong⟩
  · intro scans hall
    exact runScanEvents_agree scans s cell (s.debounced cell) rfl hall

/-- Witness for C4 at a concrete input: from a state with cell (0,0)
raw-pressed and stable since time 0, a scan at time 5 commits a Pressed
event for that cell. -/
theorem c4_witness :
    (keyboardScan 5 inp00 sB1).1.debounced cell00 = inp00 cell00 ∧
      eventsFor cell00 (keyboardScan 5 inp00 sB1).2.2 = [(cell00, inp00 cell00)] :=
  (c4_theorem 5 inp00 sB1 cell00).2.2.2.1 (by decide) (by decide) (by decide)

/-- C7: release_all is idempotent: a first call leaves every modifier
counter at zero, Pressed Count at zero and every debounced entry false,
and an immediately following second call issues no transport calls other
than the unconditional transport release_all. -/
theorem c7_theorem (s : KState) :
    (keyboardReleaseAll s).1.refCtrl = 0 ∧
      (keyboardReleaseAll s).1.refAlt = 0 ∧
      (keyboardReleaseAll s).1.refShift = 0 ∧
      (keyboardReleaseAll s).1.pressedCount = 0 ∧
      (∀ y, (keyboardReleaseAll s).1.debounced y = false) ∧
      (keyboardReleaseAll (keyboardReleaseAll s).1).2 =
        [TCall.releaseAllCall Emitter.keyboardReleaseAllE] := by
  obtain ⟨h1, h2, h3, h4, h5, h6, -, -, -⟩ := keyboardReleaseAll_post s
  refine ⟨h1, h2, h3, h4, h6, ?_⟩
  have key : ∀ t : KState, t.refCtrl = 0 → t.refAlt = 0 → t.refShift = 0 →
      (∀ y, t.debounced y = false) →
      (keyboardReleaseAll t).2 = [TCall.releaseAllCall Emitter.keyboardReleaseAllE] := by
    intro t t1 t2 t3 t6
    have hrr := runRel_nil_of_false allCells t t6
    unfold keyboardReleaseAll
    dsimp only
    rw [hrr]
    dsimp only
    rw [if_neg (by rw [t1]; exact fun hx => hx rfl)]
    dsimp only
    rw [if_neg (by rw [t2]; exact fun hx => hx rfl)]
    dsimp only
    rw [if_neg (by rw [t3]; exact fun hx => hx rfl)]
    rfl
  exact key _ h1 h2 h3 h6

/-- C8: within a single scan cycle every cell emits at most one transition
event: the cells of the emitted event list are pairwise distinct, and each
cell's own event sub-list is either empty or exactly one event carrying
that cell's raw input value. -/
theorem c8_theorem (now : Nat) (input : Cell → Bool) (s : KState) :
    ((keyboardScan now input s).2.2.map Prod.fst).Nodup ∧
      (∀ cell, eventsFor cell (keyboardScan now input s).2.2 = [] ∨
        eventsFor cell (keyboardScan now input s).2.2 = [(cell, input cell)]) := by
  constructor
  · exact List.Nodup.sublist (runCells_events_sublist now allCells _) allCells_nodup
  · intro cell
    obtain ⟨-, -, -, k4, k5⟩ := keyboardScan_cell now input s cell
    by_cases hc : s.debounced cell ≠ input cell ∧
        DEBOUNCE_MS ≤ sub32 now
          (if input cell ≠ s.lastRaw cell then now else s.lastChange cell)
    · exact Or.inr (k4 hc).2
    · exact Or.inl (k5 hc).2

/-- C9 (implicit): the Pressed Count decrement is guarded at zero:
releasing any cell (directly or through the release_all walk) from a state
with Pressed Count already zero leaves it at zero rather than
underflowing. -/
theorem c9_theorem (s : KState) (r : Fin NUM_ROWS) (c : Fin NUM_COLS) (cell : Cell)
    (h : s.pressedCount = 0) :
    (handleKeyRelease r c s).1.pressedCount = 0 ∧
      (relStep cell s).1.pressedCount = 0 := by
  have hrel : ∀ (r' : Fin NUM_ROWS) (c' : Fin NUM_COLS) (t : KState),
      t.pressedCount = 0 → (handleKeyRelease r' c' t).1.pressedCount = 0 := by
    intro r' c' t ht
    by_cases hv : (keymap (r', c')).valid = true
    · rw [(handleKeyRelease_pc_led hv t).1, ht]
      simp
    · rw [handleKeyRelease_invalid (by simpa using hv)]
      exact ht
  refine ⟨hrel r c s h, ?_⟩
  unfold relStep
  dsimp only
  split
  · dsimp only
    exact hrel cell.1 cell.2 s h
  · exact h

/-- Witness for C9 at a concrete input: releasing cell (0,0) from the
initial state (Pressed Count 0) leaves Pressed Count 0. -/
theorem c9_witness :
    keyboardInit.pressedCount = 0 ∧
      (handleKeyRelease cell00.1 cell00.2 keyboardInit).1.pressedCount = 0 :=
  ⟨rfl, (c9_theorem keyboardInit cell00.1 cell00.2 cell00 rfl).1⟩

/-- C10 (implicit): release_all clears only the debounced grid, counters,
Pressed Count and indicator; the raw and previous-raw samples and the
last-change times are unchanged.  Consequently a cell whose raw reading is
still held (raw previous-raw sample true, stable for at least the debounce
interval) commits a fresh Pressed event on a later scan cycle. -/
theorem c10_theorem (s : KState) :
    (keyboardReleaseAll s).1.rawState = s.rawState ∧
      (keyboardReleaseAll s).1.lastRaw = s.lastRaw ∧
      (keyboardReleaseAll s).1.lastChange = s.lastChange ∧
      (∀ (now : Nat) (input : Cell → Bool) (cell : Cell),
        s.lastRaw cell = true → input cell = true →
        DEBOUNCE_MS ≤ sub32 now (s.lastChange cell) →
        eventsFor cell (keyboardScan now input (keyboardReleaseAll s).1).2.2 =
          [(cell, true)]) := by
  obtain ⟨-, -, -, -, -, hdeb, g1, g2, g3⟩ := keyboardReleaseAll_post s
  refine ⟨g1, g2, g3, ?_⟩
  intro now input cell hlr hin hlong
  obtain ⟨-, -, -, k4, -⟩ :=
    keyboardScan_cell now input (keyboardReleaseAll s).1 cell
  have hcommit := k4 ?_
  · rw [hcommit.2, hin]
  · constructor
    · rw [hdeb cell, hin]
      exact Bool.false_ne_true
    · rw [g2, hlr, hin]
      simp only [ne_eq, not_true_eq_false, if_false, ite_false]
      rw [g3]
      exact hlong

/-- Witness for C10 at a concrete input: after release_all from a state
with cell (0,0) raw-held since time 0, a scan at time 7 emits a fresh
Pressed event for (0,0). -/
theorem c10_witness :
    eventsFor cell00 (keyboardScan 7 inp00 (keyboardReleaseAll sB1).1).2.2 =
      [(cell00, true)] :=
  (c10_theorem sB1).2.2.2 7 inp00 cell00 (by decide) (by decide) (by decide)

theorem runOpsT_scan_cons (now : Nat) (input : Cell → Bool) (ops : List Op) (s : KState) :
    runOpsT (Op.scan now input :: ops) s =
      ((runOpsT ops (keyboardScan now input s).1).1,
       (keyboardScan now input s).2.1 ++ (runOpsT ops (keyboardScan now input s).1).2) := rfl

/-- C2 (amended): Dispatch Logic silently ignores Empty cells — both
handlers return immediately for a cell whose keymap action is Empty, with
no transport calls and no state change — and consequently a press followed
by a release of an Empty cell produces no transport calls at all (scenario:
cell (0,5) raw-pressed during two cycles then raw-released during two
cycles; the whole run emits an empty transport trace).  (The Matrix State
Engine does, however, transition the Empty cell's debounced state and
invoke the handlers for it; see counterexample.) -/
theorem c2_theorem :
    (∀ (r : Fin NUM_ROWS) (c : Fin NUM_COLS) (s : KState),
      (keymap (r, c)).valid = false →
      handleKeyPress r c s = (s, []) ∧ handleKeyRelease r c s = (s, [])) ∧
      (runOpsT [Op.scan 0 inp05, Op.scan 5 inp05, Op.scan 6 inpNone, Op.scan 11 inpNone]
          keyboardInit).2 = [] := by
  constructor
  · intro r c s h
    exact ⟨handleKeyPress_invalid h s, handleKeyRelease_invalid h s⟩
  · rw [runOpsT_scan_cons, traceA1, stateA1,
      runOpsT_scan_cons, traceA2, stateA2,
      runOpsT_scan_cons, traceA3, stateA3,
      runOpsT_scan_cons, traceA4]
    rfl

/-- Witness for C2 at a concrete input: cell (0,5) is Empty and pressing
it leaves the state unchanged and emits nothing. -/
theorem c2_witness :
    (keymap cell05).valid = false ∧
      handleKeyPress cell05.1 cell05.2 keyboardInit = (keyboardInit, []) :=
  ⟨by decide, (c2_theorem.1 cell05.1 cell05.2 keyboardInit (by decide)).1⟩

/-- C2 counterexample: the Matrix State Engine does transition the
debounced state of the Empty cell (0,5): after two scan cycles pressing
only that cell, its debounced entry has changed from false to true. -/
theorem c2_counterexample :
    (keymap cell05).valid = false ∧
      keyboardInit.debounced cell05 = false ∧
      (runOps [Op.scan 0 inp05, Op.scan 5 inp05] keyboardInit).debounced cell05 = true := by
  refine ⟨by decide, rfl, ?_⟩
  rw [runOps_scan_cons, stateA1, runOps_scan_cons, runOps_nil_eq]
  decide

/-! ### Trace provenance (C3) -/

theorem pressModifiers_trace_ok (m : Nat) (s : KState) :
    ∀ t ∈ (pressModifiers m s).2,
      ∃ k : MKey, t = TCall.press Emitter.pressModifiersE (modCode k) := by
  intro t ht
  rw [pressModifiers_eq] at ht
  simp only [List.mem_append] at ht
  rcases ht with (h | h) | h
  · by_cases hc : m &&& MOD_LCTRL ≠ 0 ∧ s.refCtrl = 0
    · rw [if_pos hc, List.mem_singleton] at h
      exact ⟨MKey.ctrl, h⟩
    · rw [if_neg hc] at h
      exact absurd h (List.not_mem_nil t)
  · by_cases hc : m &&& MOD_LALT ≠ 0 ∧ s.refAlt = 0
    · rw [if_pos hc, List.mem_singleton] at h
      exact ⟨MKey.alt, h⟩
    · rw [if_neg hc] at h
      exact absurd h (List.not_mem_nil t)
  · by_cases hc : m &&& MOD_LSHIFT ≠ 0 ∧ s.refShift = 0
    · rw [if_pos hc, List.mem_singleton] at h
      exact ⟨MKey.shift, h⟩
    · rw [if_neg hc] at h
      exact absurd h (List.not_mem_nil t)

theorem releaseModifiers_trace_ok (m : Nat) (s : KState) :
    ∀ t ∈ (releaseModifiers m s).2,
      ∃ k : MKey, t = TCall.release Emitter.releaseModifiersE (modCode k) := by
  intro t ht
  rw [releaseModifiers_eq] at ht
  simp only [List.mem_append] at ht
  rcases ht with (h | h) | h
  · by_cases hc : m &&& MOD_LCTRL ≠ 0 ∧ s.refCtrl = 1
    · rw [if_pos hc, List.mem_singleton] at h
      exact ⟨MKey.ctrl, h⟩
    · rw [if_neg hc] at h
      exact absurd h (List.not_mem_nil t)
  · by_cases hc : m &&& MOD_LALT ≠ 0 ∧ s.refAlt = 1
    · rw [if_pos hc, List.mem_singleton] at h
      exact ⟨MKey.alt, h⟩
    · rw [if_neg hc] at h
      exact absurd h (List.not_mem_nil t)
  · by_cases hc : m &&& MOD_LSHIFT ≠ 0 ∧ s.refShift = 1
    · rw [if_pos hc, List.mem_singleton] at h
      exact ⟨MKey.shift, h⟩
    · rw [if_neg hc] at h
      exact absurd h (List.not_mem_nil t)

theorem handleKeyPress_trace_ok (r : Fin NUM_ROWS) (c : Fin NUM_COLS) (s : KState) :
    ∀ t ∈ (handleKeyPress r c s).2, OkCall t := by
  intro t ht
  by_cases hv : (keymap (r, c)).valid = true
  · rw [handleKeyPress_valid hv] at ht
    by_cases hmo : (keymap (r, c)).modifierOnly = true
    · rw [if_pos hmo] at ht
      exact Or.inl (pressModifiers_trace_ok _ s t ht)
    · rw [if_neg hmo] at ht
      rw [show ((incPressedLED
            (if (keymap (r, c)).mods ≠ MOD_NONE then (pressModifiers (keymap (r, c)).mods s).1 else s),
           (if (keymap (r, c)).mods ≠ MOD_NONE then (pressModifiers (keymap (r, c)).mods s).2 else []) ++
             [TCall.press Emitter.handleKeyPressE (keymap (r, c)).baseKey]) : KState × List TCall).2 =
          (if (keymap (r, c)).mods ≠ MOD_NONE then (pressModifiers (keymap (r, c)).mods s).2 else []) ++
            [TCall.press Emitter.handleKeyPressE (keymap (r, c)).baseKey] from rfl,
        List.mem_append] at ht
      rcases ht with h | h
      · by_cases hm : (keymap (r, c)).mods ≠ MOD_NONE
        · rw [if_pos hm] at h
          exact Or.inl (pressModifiers_trace_ok _ s t h)
        · rw [if_neg hm] at h
          exact absurd h (List.not_mem_nil t)
      · rw [List.mem_singleton] at h
        exact Or.inr (Or.inr (Or.inl ⟨(r, c), h⟩))
  · rw [handleKeyPress_invalid (by simpa using hv)] at ht
    exact absurd ht (List.not_mem_nil t)

theorem handleKeyRelease_trace_ok (r : Fin NUM_ROWS) (c : Fin NUM_COLS) (s : KState) :
    ∀ t ∈ (handleKeyRelease r c s).2,
      (∃ k : MKey, t = TCall.release Emitter.releaseModifiersE (modCode k)) ∨
        (∃ cell : Cell, t = TCall.release Emitter.handleKeyReleaseE (keymap cell).baseKey) := by
  intro t ht
  by_cases hv : (keymap (r, c)).valid = true
  · rw [handleKeyRelease_valid hv] at ht
    by_cases hmo : (keymap (r, c)).modifierOnly = true
    · rw [if_pos hmo] at ht
      exact Or.inl (releaseModifiers_trace_ok _ s t ht)
    · rw [if_neg hmo] at ht
      rw [show ((decPressedLED
            (if (keymap (r, c)).mods ≠ MOD_NONE then (releaseModifiers (keymap (r, c)).mods s).1 else s),
           TCall.release Emitter.handleKeyReleaseE (keymap (r, c)).baseKey ::
             (if (keymap (r, c)).mods ≠ MOD_NONE then (releaseModifiers (keymap (r, c)).mods s).2 else [])) :
            KState × List TCall).2 =
          TCall.release Emitter.handleKeyReleaseE (keymap (r, c)).baseKey ::
            (if (keymap (r, c)).mods ≠ MOD_NONE then (releaseModifiers (keymap (r, c)).mods s).2 else [])
          from rfl, List.mem_cons] at ht
      rcases ht with h | h
      · exact Or.inr ⟨(r, c), h⟩
      · by_cases hm : (keymap (r, c)).mods ≠ MOD_NONE
        · rw [if_pos hm] at h
          exact Or.inl (releaseModifiers_trace_ok _ s t h)
        · rw [if_neg hm] at h
          exact absurd h (List.not_mem_nil t)
  · rw [handleKeyRelease_invalid (by simpa using hv)] at ht
    exact absurd ht (List.not_mem_nil t)

theorem scanStep_trace_ok (now : Nat) (x : Cell) (s : KState) :
    ∀ t ∈ (scanStep now x s).2.1, OkCall t := by
  intro t ht
  rw [scanStep_eq] at ht
  split at ht <;> split at ht <;>
    first
      | exact absurd ht (List.not_mem_nil t)
      | (split at ht
         · exact handleKeyPress_trace_ok x.1 x.2 _ t ht
         · rcases handleKeyRelease_trace_ok x.1 x.2 _ t ht with h | h
           · exact Or.inr (Or.inl h)
           · exact Or.inr (Or.inr (Or.inr h)))

theorem runCells_trace_ok (now : Nat) :
    ∀ (L : List Cell) (s : KState), ∀ t ∈ (runCells (scanStep now) L s).2.1, OkCall t := by
  intro L
  induction L with
  | nil => intro s t ht; exact absurd ht (List.not_mem_nil t)
  | cons x xs ih =>
    intro s t ht
    rw [show (runCells (scanStep now) (x :: xs) s).2.1 =
        (scanStep now x s).2.1 ++
          (runCells (scanStep now) xs (scanStep now x s).1).2.1 from rfl,
      List.mem_append] at ht
    rcases ht with h | h
    · exact scanStep_trace_ok now x s t h
    · exact ih (scanStep now x s).1 t h

theorem keyboardScan_trace_ok (now : Nat) (input : Cell → Bool) (s : KState) :
    ∀ t ∈ (keyboardScan now input s).2.1, OkCall t := by
  intro t ht
  exact runCells_trace_ok now allCells _ t ht

theorem runRel_trace_ok :
    ∀ (L : List Cell) (s : KState), ∀ t ∈ (runRel L s).2,
      (∃ k : MKey, t = TCall.release Emitter.releaseModifiersE (modCode k)) ∨
        (∃ cell : Cell, t = TCall.release Emitter.handleKeyReleaseE (keymap cell).baseKey) := by
  intro L
  induction L with
  | nil => intro s t ht; exact absurd ht (List.not_mem_nil t)
  | cons x xs ih =>
    intro s t ht
    rw [show (runRel (x :: xs) s).2 =
        (relStep x s).2 ++ (runRel xs (relStep x s).1).2 from rfl,
      List.mem_append] at ht
    rcases ht with h | h
    · unfold relStep at h
      dsimp only at h
      split at h
      · exact handleKeyRelease_trace_ok x.1 x.2 s t h
      · exact absurd h (List.not_mem_nil t)
    · exact ih (relStep x s).1 t h

theorem mem_ite_singleton {P : Prop} [Decidable P] {t x : TCall} {a b : KState}
    (h : t ∈ (if P then (a, [x]) else (b, [])).2) : t = x := by
  split at h
  · rwa [List.mem_singleton] at h
  · exact absurd h (List.not_mem_nil t)

theorem keyboardReleaseAll_trace_ok (s : KState) :
    ∀ t ∈ (keyboardReleaseAll s).2,
      (∃ k : MKey, t = TCall.release Emitter.releaseModifiersE (modCode k)) ∨
        (∃ cell : Cell, t = TCall.release Emitter.handleKeyReleaseE (keymap cell).baseKey) ∨
        (∃ k : MKey, t = TCall.release Emitter.keyboardReleaseAllE (modCode k)) ∨
        t = TCall.releaseAllCall Emitter.keyboardReleaseAllE := by
  intro t ht
  unfold keyboardReleaseAll at ht
  dsimp only at ht
  simp only [List.mem_append] at ht
  rcases ht with (((h | h) | h) | h) | h
  · rcases runRel_trace_ok allCells s t h with hk | hk
    · exact Or.inl hk
    · exact Or.inr (Or.inl hk)
  · exact Or.inr (Or.inr (Or.inl ⟨MKey.ctrl, mem_ite_singleton h⟩))
  · exact Or.inr (Or.inr (Or.inl ⟨MKey.alt, mem_ite_singleton h⟩))
  · exact Or.inr (Or.inr (Or.inl ⟨MKey.shift, mem_ite_singleton h⟩))
  · rw [List.mem_singleton] at h
    exact Or.inr (Or.inr (Or.inr h))

theorem keymap_baseKey_not_mod : ∀ cell : Cell, isModCode (keymap cell).baseKey = false := by
  decide

/-- C3 (amended): `pressModifiers` is the only code path that asserts a
modifier keycode on the transport, and on the scan path `releaseModifiers`
is the only one that deasserts one; `keyboardReleaseAll` additionally
deasserts directly (bypassing `releaseModifiers`) any modifier whose
counter is still nonzero after its per-cell walk, so its modifier
deasserts are tagged `releaseModifiersE` or `keyboardReleaseAllE`, and it
never asserts a modifier. -/
theorem c3_theorem :
    (∀ (now : Nat) (input : Cell → Bool) (s : KState),
      ∀ t ∈ (keyboardScan now input s).2.1, isModPR t = true →
        emitterOf t = Emitter.pressModifiersE ∨ emitterOf t = Emitter.releaseModifiersE) ∧
      (∀ (now : Nat) (input : Cell → Bool) (s : KState),
        ∀ t ∈ (keyboardScan now input s).2.1, isModPress t = true →
          emitterOf t = Emitter.pressModifiersE) ∧
      (∀ s : KState, ∀ t ∈ (keyboardReleaseAll s).2, isModPR t = true →
        emitterOf t = Emitter.releaseModifiersE ∨
          emitterOf t = Emitter.keyboardReleaseAllE) ∧
      (∀ s : KState, ∀ t ∈ (keyboardReleaseAll s).2, isModPress t = false) := by
  refine ⟨?_, ?_, ?_, ?_⟩
  · intro now input s t ht hmod
    rcases keyboardScan_trace_ok now input s t ht with ⟨k, hk⟩ | ⟨k, hk⟩ | ⟨cell, hk⟩ | ⟨cell, hk⟩
    · rw [hk]
      exact Or.inl rfl
    · rw [hk]
      exact Or.inr rfl
    · rw [hk] at hmod
      rw [show isModPR (TCall.press Emitter.handleKeyPressE (keymap cell).baseKey) =
          isModCode (keymap cell).baseKey from rfl, keymap_baseKey_not_mod cell] at hmod
      exact absurd hmod Bool.false_ne_true
    · rw [hk] at hmod
      rw [show isModPR (TCall.release Emitter.handleKeyReleaseE (keymap cell).baseKey) =
          isModCode (keymap cell).baseKey from rfl, keymap_baseKey_not_mod cell] at hmod
      exact absurd hmod Bool.false_ne_true
  · intro now input s t ht hmod
    rcases keyboardScan_trace_ok now input s t ht with ⟨k, hk⟩ | ⟨k, hk⟩ | ⟨cell, hk⟩ | ⟨cell, hk⟩
    · rw [hk]
      rfl
    · rw [hk] at hmod
      exact absurd hmod Bool.false_ne_true
    · rw [hk] at hmod
      rw [show isModPress (TCall.press Emitter.handleKeyPressE (keymap cell).baseKey) =
          isModCode (keymap cell).baseKey from rfl, keymap_baseKey_not_mod cell] at hmod
      exact absurd hmod Bool.false_ne_true
    · rw [hk] at hmod
      exact absurd hmod Bool.false_ne_true
  · intro s t ht hmod
    rcases keyboardReleaseAll_trace_ok s t ht with ⟨k, hk⟩ | ⟨cell, hk⟩ | ⟨k, hk⟩ | hk
    · rw [hk]
      exact Or.inl rfl
    · rw [hk] at hmod
      rw [show isModPR (TCall.release Emitter.handleKeyReleaseE (keymap cell).baseKey) =
          isModCode (keymap cell).baseKey from rfl, keymap_baseKey_not_mod cell] at hmod
      exact absurd hmod Bool.false_ne_true
    · rw [hk]
      exact Or.inr rfl
    · rw [hk] at hmod
      exact absurd hmod Bool.false_ne_true
  · intro s t ht
    rcases keyboardReleaseAll_trace_ok s t ht with ⟨k, hk⟩ | ⟨cell, hk⟩ | ⟨k, hk⟩ | hk <;>
      rw [hk] <;> rfl

/-- Witness for C3 at a concrete input: the Alt assert emitted while
scanning the chord cell (0,0) is tagged `pressModifiersE`. -/
theorem c3_witness :
    emitterOf (TCall.press Emitter.pressModifiersE MODIFIERKEY_LEFT_ALT) =
        Emitter.pressModifiersE ∨
      emitterOf (TCall.press Emitter.pressModifiersE MODIFIERKEY_LEFT_ALT) =
        Emitter.releaseModifiersE :=
  c3_theorem.1 5 inp00 sB1 (TCall.press Emitter.pressModifiersE MODIFIERKEY_LEFT_ALT)
    (by decide) (by decide)

/-- C3 counterexample: `keyboardReleaseAll` itself directly releases a
modifier keycode: from a state whose Ctrl counter is 1 with no debounced
cells, its trace contains a Ctrl release tagged `keyboardReleaseAllE`,
i.e. emitted by neither `pressModifiers` nor `releaseModifiers`. -/
theorem c3_counterexample :
    TCall.release Emitter.keyboardReleaseAllE MODIFIERKEY_LEFT_CTRL ∈
        (keyboardReleaseAll { keyboardInit with refCtrl := 1 }).2 ∧
      isModPR (TCall.release Emitter.keyboardReleaseAllE MODIFIERKEY_LEFT_CTRL) = true ∧
      Emitter.keyboardReleaseAllE ≠ Emitter.pressModifiersE ∧
      Emitter.keyboardReleaseAllE ≠ Emitter.releaseModifiersE := by
  refine ⟨by decide, by decide, by decide, by decide⟩

theorem pressModifiers_trace_eq (m : Nat) (s : KState) :
    (pressModifiers m s).2 =
      (if m &&& MOD_LCTRL ≠ 0 ∧ s.refCtrl = 0 then
        [TCall.press Emitter.pressModifiersE MODIFIERKEY_LEFT_CTRL] else []) ++
      (if m &&& MOD_LALT ≠ 0 ∧ s.refAlt = 0 then
        [TCall.press Emitter.pressModifiersE MODIFIERKEY_LEFT_ALT] else []) ++
      (if m &&& MOD_LSHIFT ≠ 0 ∧ s.refShift = 0 then
        [TCall.press Emitter.pressModifiersE MODIFIERKEY_LEFT_SHIFT] else []) := by
  rw [pressModifiers_eq]

theorem releaseModifiers_trace_eq (m : Nat) (s : KState) :
    (releaseModifiers m s).2 =
      (if m &&& MOD_LCTRL ≠ 0 ∧ s.refCtrl = 1 then
        [TCall.release Emitter.releaseModifiersE MODIFIERKEY_LEFT_CTRL] else []) ++
      (if m &&& MOD_LALT ≠ 0 ∧ s.refAlt = 1 then
        [TCall.release Emitter.releaseModifiersE MODIFIERKEY_LEFT_ALT] else []) ++
      (if m &&& MOD_LSHIFT ≠ 0 ∧ s.refShift = 1 then
        [TCall.release Emitter.releaseModifiersE MODIFIERKEY_LEFT_SHIFT] else []) := by
  rw [releaseModifiers_eq]

theorem keymap_chord_mask :
    ∀ cell : Cell, (keymap cell).modifierOnly = false →
      (keymap cell).mods = MOD_NONE ∨ (keymap cell).mods = MOD_LCTRL ∨
        (keymap cell).mods = MOD_LALT := by
  decide

/-- C6: for every Chord cell, processing its Pressed event issues the
modifier assert(s) strictly before the transport press of the base key,
and processing its Released event issues the transport release of the base
key strictly before the modifier deassert(s); when the chord's modifiers
are armed on press (counters 0) and held uniquely on release (counters 1),
the release trace is exactly the reverse of the press trace with presses
turned into releases. -/
theorem c6_theorem (r : Fin NUM_ROWS) (c : Fin NUM_COLS)
    (hv : (keymap (r, c)).valid = true) (hmo : (keymap (r, c)).modifierOnly = false)
    (hm : (keymap (r, c)).mods ≠ MOD_NONE) (s s' : KState) :
    (handleKeyPress r c s).2 =
        (pressModifiers (keymap (r, c)).mods s).2 ++
          [TCall.press Emitter.handleKeyPressE (keymap (r, c)).baseKey] ∧
      (handleKeyRelease r c s).2 =
        TCall.release Emitter.handleKeyReleaseE (keymap (r, c)).baseKey ::
          (releaseModifiers (keymap (r, c)).mods s).2 ∧
      (∀ t ∈ (pressModifiers (keymap (r, c)).mods s).2,
        ∃ k : MKey, t = TCall.press Emitter.pressModifiersE (modCode k)) ∧
      (∀ t ∈ (releaseModifiers (keymap (r, c)).mods s).2,
        ∃ k : MKey, t = TCall.release Emitter.releaseModifiersE (modCode k)) ∧
      ((∀ k : MKey, maskHas k (keymap (r, c)).mods = true → refOf k s = 0) →
        (∀ k : MKey, maskHas k (keymap (r, c)).mods = true → refOf k s' = 1) →
        (handleKeyRelease r c s').2 =
          ((handleKeyPress r c s).2.reverse).map swapPR) := by
  have hptr : ∀ u : KState,
      (handleKeyPress r c u).2 =
        (pressModifiers (keymap (r, c)).mods u).2 ++
          [TCall.press Emitter.handleKeyPressE (keymap (r, c)).baseKey] := by
    intro u
    rw [handleKeyPress_valid hv, if_neg (by simp [hmo]), if_pos hm, if_pos hm]
  have hrel : ∀ u : KState,
      (handleKeyRelease r c u).2 =
        TCall.release Emitter.handleKeyReleaseE (keymap (r, c)).baseKey ::
          (releaseModifiers (keymap (r, c)).mods u).2 := by
    intro u
    rw [handleKeyRelease_valid hv, if_neg (by simp [hmo]), if_pos hm, if_pos hm]
  refine ⟨hptr s, hrel s, pressModifiers_trace_ok _ s, releaseModifiers_trace_ok _ s, ?_⟩
  intro h0 h1
  rcases keymap_chord_mask (r, c) hmo with hmask | hmask | hmask
  · exact absurd hmask hm
  · have hc0 : refOf MKey.ctrl s = 0 := h0 MKey.ctrl (by rw [hmask]; decide)
    have hc1 : refOf MKey.ctrl s' = 1 := h1 MKey.ctrl (by rw [hmask]; decide)
    have hpm : (pressModifiers (keymap (r, c)).mods s).2 =
        [TCall.press Emitter.pressModifiersE MODIFIERKEY_LEFT_CTRL] := by
      rw [hmask, pressModifiers_trace_eq]
      rw [if_pos ⟨by decide, hc0⟩, if_neg (fun hx => absurd hx.1 (by decide)),
        if_neg (fun hx => absurd hx.1 (by decide))]
      rfl
    have hrm : (releaseModifiers (keymap (r, c)).mods s').2 =
        [TCall.release Emitter.releaseModifiersE MODIFIERKEY_LEFT_CTRL] := by
      rw [hmask, releaseModifiers_trace_eq]
      rw [if_pos ⟨by decide, hc1⟩, if_neg (fun hx => absurd hx.1 (by decide)),
        if_neg (fun hx => absurd hx.1 (by decide))]
      rfl
    rw [hrel s', hptr s, hpm, hrm]
    rfl
  · have hc0 : refOf MKey.alt s = 0 := h0 MKey.alt (by rw [hmask]; decide)
    have hc1 : refOf MKey.alt s' = 1 := h1 MKey.alt (by rw [hmask]; decide)
    have hpm : (pressModifiers (keymap (r, c)).mods s).2 =
        [TCall.press Emitter.pressModifiersE MODIFIERKEY_LEFT_ALT] := by
      rw [hmask, pressModifiers_trace_eq]
      rw [if_neg (fun hx => absurd hx.1 (by decide)), if_pos ⟨by decide, hc0⟩,
        if_neg (fun hx => absurd hx.1 (by decide))]
      rfl
    have hrm : (releaseModifiers (keymap (r, c)).mods s').2 =
        [TCall.release Emitter.releaseModifiersE MODIFIERKEY_LEFT_ALT] := by
      rw [hmask, releaseModifiers_trace_eq]
      rw [if_neg (fun hx => absurd hx.1 (by decide)), if_pos ⟨by decide, hc1⟩,
        if_neg (fun hx => absurd hx.1 (by decide))]
      rfl
    rw [hrel s', hptr s, hpm, hrm]
    rfl

/-- Witness for C6 at a concrete input: the chord cell (0,0)
(`Chord('p', Alt)`) pressed from the initial state and released from a
state holding only that chord. -/
theorem c6_witness :
    (handleKeyPress cell00.1 cell00.2 keyboardInit).2 =
        (pressModifiers (keymap cell00).mods keyboardInit).2 ++
          [TCall.press Emitter.handleKeyPressE (keymap cell00).baseKey] ∧
      (handleKeyRelease cell00.1 cell00.2 { keyboardInit with refAlt := 1 }).2 =
        ((handleKeyPress cell00.1 cell00.2 keyboardInit).2.reverse).map swapPR :=
  ⟨(c6_theorem cell00.1 cell00.2 (by decide) (by decide) (by decide) keyboardInit
      { keyboardInit with refAlt := 1 }).1,
    (c6_theorem cell00.1 cell00.2 (by decide) (by decide) (by decide) keyboardInit
      { keyboardInit with refAlt := 1 }).2.2.2.2 (by decide) (by decide)⟩

end EvoKbd
